import Mathlib

/-!
Verification of the MPU6050 driver (src/src/lib.rs) against its
natural-language specification.

The driver is embedded shallowly: the I2C bus is an oracle mapping the
index of a transaction to its response, the device handle
(`MpuState`) carries the cached sensitivities and the software gyro
fine-tune offsets, and every driver operation is a state transformer
`DState -> Except err result × DState` mirroring the Rust methods
(`&mut self` persists its partial updates even when an error is
returned early through `?`).

Machine integers are modelled as `Int` / `Nat` (the driver's arithmetic
stays far from i32 overflow; the real narrowing casts `as i16` /
`as u16` are modelled exactly as wrapping, in `toI16` / `i16ToU16`).
The `f32` values of the calibration routine (means, 1.5 tolerance,
division by 4, `signum`, `max`, truncating casts) are modelled as exact
rationals; every such operation except the division by 1000 is exact in
f32 over the magnitudes reachable from 16-bit samples.
-/

namespace Mpu6050

/-- Vector of three components, mirroring `micromath::vector::Vector3d`. -/
structure V3 (α : Type) where
  x : α
  y : α
  z : α
deriving DecidableEq

instance : Add (V3 Int) where
  add a b := ⟨a.x + b.x, a.y + b.y, a.z + b.z⟩

/-- Truncation toward zero of a rational, the behaviour of Rust's
`f32 as i32` cast for in-range values. -/
def truncToInt (q : ℚ) : Int := if 0 ≤ q then ⌊q⌋ else ⌈q⌉

/-- Sign function of a rational, the behaviour of `f32::signum` on the
values representable here (`signum(+0.0) = 1.0`). -/
def qSignum (q : ℚ) : ℚ := if q < 0 then -1 else 1

/-- Wrapping conversion of an integer to the signed 16-bit value with the
same low 16 bits: Rust's `i32 as i16`. -/
def toI16 (v : Int) : Int := (v + 32768) % 65536 - 32768

/-- Reinterpretation of a signed 16-bit value as unsigned: `i16 as u16`. -/
def i16ToU16 (v : Int) : Nat := (v % 65536).toNat

/-- Register addresses and field positions. Modelled from the spec: the
register map lives in the crate's `device.rs`, which is not under `src/`;
the spec treats it as static external lookup data, so the concrete
numbers are free parameters of the development and the claims do not
depend on them. -/
def DEFAULT_SLAVE_ADDR : Nat := 104

/-- Modelled from the spec: gyro output register block (external register map). -/
def GYRO_REGX_H : Nat := 67

/-- Modelled from the spec: accelerometer output register block (external register map). -/
def ACC_REGX_H : Nat := 59

/-- Modelled from the spec: gyro X hardware offset register pair (external register map). -/
def XG_OFFS_USRH : Nat := 19

/-- Modelled from the spec: gyro Y hardware offset register pair (external register map). -/
def YG_OFFS_USRH : Nat := 21

/-- Modelled from the spec: gyro Z hardware offset register pair (external register map). -/
def ZG_OFFS_USRH : Nat := 23

/-- Modelled from the spec: gyro configuration register (external register map). -/
def GYRO_CONFIG_ADDR : Nat := 27

/-- Modelled from the spec: accel configuration register (external register map). -/
def ACCEL_CONFIG_ADDR : Nat := 28

/-- Modelled from the spec: full-scale-selection field position, as a
`(start_bit, length)` field in the spec's convention. -/
def FS_SEL_BIT : Nat := 3

/-- Modelled from the spec: full-scale-selection field length. -/
def FS_SEL_LENGTH : Nat := 2

/-- Gyro full-scale ranges (the four selectable ranges of the device). -/
inductive GyroRange where
  | D250
  | D500
  | D1000
  | D2000
deriving DecidableEq

/-- Register code of a gyro range (`range as u8`). -/
def GyroRange.code : GyroRange → Nat
  | .D250 => 0
  | .D500 => 1
  | .D1000 => 2
  | .D2000 => 3

/-- Accelerometer full-scale ranges. -/
inductive AccelRange where
  | G2
  | G4
  | G8
  | G16
deriving DecidableEq

/-- Register code of an accel range (`range as u8`). -/
def AccelRange.code : AccelRange → Nat
  | .G2 => 0
  | .G4 => 1
  | .G8 => 2
  | .G16 => 3

/-- Modelled from the spec: `bits::get_bit` of the crate's `bits.rs` (not
under `src/`). Returns bit `n` of `byte`, 0-based from the LSB. -/
def get_bit (byte n : Nat) : Nat := (byte >>> n) % 2

/-- Modelled from the spec: `bits::set_bit`. Clears bit `n` of `byte`
and then optionally sets it; all other bits are unchanged. -/
def set_bit (byte n : Nat) (value : Bool) : Nat :=
  (byte &&& (255 ^^^ (1 <<< n))) ||| (if value then 1 <<< n else 0)

/-- Modelled from the spec: `bits::get_bits`. Right-aligned unsigned value
of bits `[start, start+length)` of `byte`. -/
def get_bits (byte start length : Nat) : Nat := (byte >>> start) % (2 ^ length)

/-- Modelled from the spec: `bits::set_bits`. Masks out exactly bits
`[start, start+length)` and ORs in the low `length` bits of `value`
shifted into position; excess bits of `value` are truncated. -/
def set_bits (byte start length value : Nat) : Nat :=
  (byte &&& (255 ^^^ ((2 ^ length - 1) <<< start))) ||| ((value % 2 ^ length) <<< start)

/-- Decode of 2 big-endian bytes as a two's-complement 16-bit value,
mirroring `Mpu6050::read_word_2c` (`(high << 8) + low`, then the
`word >= 0x8000` reinterpretation written as `-((65535 - word) + 1)`). -/
def read_word_2c (b0 b1 : Nat) : Int :=
  let high : Int := b0
  let low : Int := b1
  let word : Int := high * 2 ^ 8 + low
  if word ≥ 0x8000 then -((65535 - word) + 1) else word

/-- Decode of a 6-byte register block into the three raw axis words. -/
def decode6 (l : List Nat) : V3 Int :=
  ⟨read_word_2c (l.getD 0 0) (l.getD 1 0),
   read_word_2c (l.getD 2 0) (l.getD 3 0),
   read_word_2c (l.getD 4 0) (l.getD 5 0)⟩

/-- Normalisation of a bus response to exactly `len` bytes (the bus
capability contract returns exactly the requested bytes; shorter or
wider responses are clipped so the model stays total). -/
def padTo (len : Nat) (l : List Nat) : List Nat :=
  (List.range len).map fun i => l.getD i 0 % 256

/-- One I2C transaction as the driver issues it: either a plain write of
a payload (first byte is the register), or a write-then-read of `len`
bytes starting at register `reg`. -/
inductive Tx where
  | write (addr : Nat) (data : List Nat)
  | writeRead (addr : Nat) (reg : Nat) (len : Nat)
deriving DecidableEq

/-- The software-visible state of the `Mpu6050` handle: slave address,
the two cached sensitivities and the gyro fine-tune offset vector. -/
structure MpuState where
  slave_addr : Nat
  acc_sensitivity : ℚ
  gyro_sensitivity : ℚ
  gyro_fine_tune_offsets : V3 Int
deriving DecidableEq

/-- Whole driver state: the handle, the index of the next bus
transaction, the log of issued transactions (most recent first), the
log of calibration progress-callback invocations, and the bus oracle
mapping a transaction index and the issued transaction to the bus's
response. -/
structure DState (ε : Type) where
  mpu : MpuState
  txIdx : Nat
  txs : List Tx
  cbLog : List Nat
  bus : Nat → Tx → Except ε (List Nat)

/-- A driver computation: state in, `Result` plus state out. An error
response propagates (Rust `?`) but the state updates already made stay,
as they do through `&mut self`. -/
def DriverM (ε α : Type) : Type := DState ε → Except ε α × DState ε

/-- Monadic return. -/
def dPure {ε α : Type} (a : α) : DriverM ε α := fun s => (.ok a, s)

/-- Monadic sequencing with early return on error, mirroring `?`. -/
def dBind {ε α β : Type} (m : DriverM ε α) (f : α → DriverM ε β) : DriverM ε β := fun s =>
  match m s with
  | (.ok a, s') => f a s'
  | (.error e, s') => (.error e, s')

/-- Read access to the handle fields. -/
def dGetMpu {ε : Type} : DriverM ε MpuState := fun s => (.ok s.mpu, s)

/-- Record one issued transaction. -/
def advance {ε : Type} (s : DState ε) (tx : Tx) : DState ε :=
  { s with txIdx := s.txIdx + 1, txs := tx :: s.txs }

/-- One write transaction on the bus (`self.i2c.write`). -/
def write_raw {ε : Type} (data : List Nat) : DriverM ε Unit := fun s =>
  let tx := Tx.write s.mpu.slave_addr data
  match s.bus s.txIdx tx with
  | .ok _ => (.ok (), advance s tx)
  | .error e => (.error e, advance s tx)

/-- Mirrors `read_bytes`: one write-then-read transaction
(`self.i2c.write_read(self.slave_addr, &[reg], buf)`). -/
def read_bytes {ε : Type} (reg len : Nat) : DriverM ε (List Nat) := fun s =>
  let tx := Tx.writeRead s.mpu.slave_addr reg len
  match s.bus s.txIdx tx with
  | .ok l => (.ok (padTo len l), advance s tx)
  | .error e => (.error e, advance s tx)

/-- Mirrors `write_byte`: `self.i2c.write(self.slave_addr, &[reg, byte])`. -/
def write_byte {ε : Type} (reg byte : Nat) : DriverM ε Unit :=
  write_raw [reg, byte]

/-- Mirrors `write_word`: one 3-byte write transaction
`[reg, (word >> 8) as u8, (word & 0x00FF) as u8]`. -/
def write_word {ε : Type} (reg w : Nat) : DriverM ε Unit :=
  write_raw [reg, w / 256 % 256, w % 256]

/-- Mirrors `write_bit`: read one byte, flip bit `bit_n`, write it back. -/
def write_bit {ε : Type} (reg bit_n : Nat) (enable : Bool) : DriverM ε Unit :=
  dBind (read_bytes reg 1) fun b =>
    write_byte reg (set_bit (b.getD 0 0) bit_n enable)

/-- Mirrors `write_bits`: read one byte, splice the field, write it back. -/
def write_bits {ε : Type} (reg start_bit length data : Nat) : DriverM ε Unit :=
  dBind (read_bytes reg 1) fun b =>
    write_byte reg (set_bits (b.getD 0 0) start_bit length data)

/-- Mirrors `read_bit`. -/
def read_bit {ε : Type} (reg bit_n : Nat) : DriverM ε Nat :=
  dBind (read_bytes reg 1) fun b => dPure (get_bit (b.getD 0 0) bit_n)

/-- Mirrors `read_bits`. -/
def read_bits {ε : Type} (reg start_bit length : Nat) : DriverM ε Nat :=
  dBind (read_bytes reg 1) fun b => dPure (get_bits (b.getD 0 0) start_bit length)

/-- Mirrors `read_byte`. -/
def read_byte {ε : Type} (reg : Nat) : DriverM ε Nat :=
  dBind (read_bytes reg 1) fun b => dPure (b.getD 0 0)

/-- Replace the gyro fine-tune offset vector
(`self.gyro_fine_tune_offsets = ...`). -/
def setFineTune {ε : Type} (v : V3 Int) : DriverM ε Unit := fun s =>
  (.ok (), { s with mpu := { s.mpu with gyro_fine_tune_offsets := v } })

/-- Mirrors `set_gyro_range`: write the range code into the FS_SEL field,
then cache the range's sensitivity. The sensitivity table itself lives in
`device.rs` (not under `src/`), so it is a parameter `sens`. -/
def set_gyro_range {ε : Type} (sens : GyroRange → ℚ) (range : GyroRange) : DriverM ε Unit :=
  dBind (write_bits GYRO_CONFIG_ADDR FS_SEL_BIT FS_SEL_LENGTH range.code) fun _ s =>
    (.ok (), { s with mpu := { s.mpu with gyro_sensitivity := sens range } })

/-- Mirrors `set_accel_range`. -/
def set_accel_range {ε : Type} (sens : AccelRange → ℚ) (range : AccelRange) : DriverM ε Unit :=
  dBind (write_bits ACCEL_CONFIG_ADDR FS_SEL_BIT FS_SEL_LENGTH range.code) fun _ s =>
    (.ok (), { s with mpu := { s.mpu with acc_sensitivity := sens range } })

/-- Mirrors `read_rot_i32`: read 6 bytes from `reg`, decode the three
big-endian words, and add the current fine-tune offset componentwise —
note the source adds `gyro_fine_tune_offsets` for every caller,
accelerometer reads included. -/
def read_rot_i32 {ε : Type} (reg : Nat) : DriverM ε (V3 Int) :=
  dBind (read_bytes reg 6) fun buf =>
  dBind dGetMpu fun m =>
  dPure ⟨read_word_2c (buf.getD 0 0) (buf.getD 1 0) + m.gyro_fine_tune_offsets.x,
         read_word_2c (buf.getD 2 0) (buf.getD 3 0) + m.gyro_fine_tune_offsets.y,
         read_word_2c (buf.getD 4 0) (buf.getD 5 0) + m.gyro_fine_tune_offsets.z⟩

/-- Mirrors `get_gyro_offsets`: three 2-byte reads of the offset register
pairs, each decoded with `read_word_2c`. -/
def get_gyro_offsets {ε : Type} : DriverM ε (V3 Int) :=
  dBind (read_bytes XG_OFFS_USRH 2) fun bX =>
  dBind (read_bytes YG_OFFS_USRH 2) fun bY =>
  dBind (read_bytes ZG_OFFS_USRH 2) fun bZ =>
  dPure ⟨read_word_2c (bX.getD 0 0) (bX.getD 1 0),
         read_word_2c (bY.getD 0 0) (bY.getD 1 0),
         read_word_2c (bZ.getD 0 0) (bZ.getD 1 0)⟩

/-- Mirrors `set_gyro_offsets`: the three i16 offsets are written to the
offset register pairs as 16-bit words (`x_offset as u16`). -/
def set_gyro_offsets {ε : Type} (x_offset y_offset z_offset : Int) : DriverM ε Unit :=
  dBind (write_word XG_OFFS_USRH (i16ToU16 x_offset)) fun _ =>
  dBind (write_word YG_OFFS_USRH (i16ToU16 y_offset)) fun _ =>
  write_word ZG_OFFS_USRH (i16ToU16 z_offset)

/-- Mirrors `MAX_CALIBRATION_STEPS`. -/
def MAX_CALIBRATION_STEPS : Nat := 20

/-- Mirrors `TARGET_MAX_MEASUREMENT_MEAN = 1.5`. -/
def TARGET_MAX_MEASUREMENT_MEAN : ℚ := 3 / 2

/-- Mirrors `MEASURMENT_COUNT = 1000`. -/
def MEASURMENT_COUNT : Nat := 1000

/-- The settling reads `for _ in 0..100 { read_rot_i32; delay }` whose
results are discarded. -/
def discardReads {ε : Type} : Nat → DriverM ε Unit
  | 0 => dPure ()
  | n + 1 => dBind (read_rot_i32 GYRO_REGX_H) fun _ => discardReads n

/-- The summing reads `for _ in 0..MEASURMENT_COUNT { sum += read; delay }`. -/
def sumReads {ε : Type} : Nat → V3 Int → DriverM ε (V3 Int)
  | 0, acc => dPure acc
  | n + 1, acc => dBind (read_rot_i32 GYRO_REGX_H) fun g => sumReads n (acc + g)

/-- Mirrors `calibrate_gyro_mean_sensor`: discard 100 raw gyro samples,
sum the next 1000, and return the per-axis mean `sum / 1000`. -/
def calibrate_gyro_mean_sensor {ε : Type} : DriverM ε (V3 ℚ) :=
  dBind (discardReads 100) fun _ =>
  dBind (sumReads MEASURMENT_COUNT ⟨0, 0, 0⟩) fun sum =>
  dPure ⟨(sum.x : ℚ) / (MEASURMENT_COUNT : ℚ),
         (sum.y : ℚ) / (MEASURMENT_COUNT : ℚ),
         (sum.z : ℚ) / (MEASURMENT_COUNT : ℚ)⟩

/-- One axis of the offset adjustment of `calibrate_gyro`:
`if mean.abs() > 1.5 { offset - (mean.signum() * max(mean.abs()/4, 1.0)) as i32 }`. -/
def updAxis (offset : Int) (mean : ℚ) : Int :=
  if TARGET_MAX_MEASUREMENT_MEAN < |mean| then
    offset - truncToInt (qSignum mean * max (|mean| / 4) 1)
  else offset

/-- The three-axis offset update of one calibration step. -/
def updV (offsets : V3 Int) (mean : V3 ℚ) : V3 Int :=
  ⟨updAxis offsets.x mean.x, updAxis offsets.y mean.y, updAxis offsets.z mean.z⟩

/-- The convergence test of `calibrate_gyro`:
`mean.x.abs() < 1.5 && mean.y.abs() < 1.5 && mean.z.abs() < 1.5`. -/
def inBand (mean : V3 ℚ) : Bool :=
  decide (|mean.x| < TARGET_MAX_MEASUREMENT_MEAN) &&
  decide (|mean.y| < TARGET_MAX_MEASUREMENT_MEAN) &&
  decide (|mean.z| < TARGET_MAX_MEASUREMENT_MEAN)

/-- The converged-step fine-tune capture `{ x: -mean.x as i32, ... }`
(unary minus binds tighter than `as`, so this is the truncation of the
negated mean). -/
def fineTuneOfMean (mean : V3 ℚ) : V3 Int :=
  ⟨truncToInt (-mean.x), truncToInt (-mean.y), truncToInt (-mean.z)⟩

/-- The progress callback of `calibrate_gyro`, modelled by its only
observable effect: the step index it is handed. -/
def invokeCallback {ε : Type} (step : Nat) : DriverM ε Unit := fun s =>
  (.ok (), { s with cbLog := step :: s.cbLog })

/-- One iteration of the `calibrate_gyro` loop body: sample the mean,
read the hardware offsets back, adjust each out-of-tolerance axis, write
all three offsets back as 16-bit words, invoke the callback, and on
convergence capture the fine-tune offsets. Returns the `offsets_found`
flag. -/
def calibIteration {ε : Type} (step : Nat) : DriverM ε Bool :=
  dBind calibrate_gyro_mean_sensor fun mean =>
  dBind get_gyro_offsets fun offsets =>
  dBind (set_gyro_offsets (toI16 (updV offsets mean).x)
                          (toI16 (updV offsets mean).y)
                          (toI16 (updV offsets mean).z)) fun _ =>
  dBind (invokeCallback step) fun _ =>
  if inBand mean then
    dBind (setFineTune (fineTuneOfMean mean)) fun _ => dPure true
  else dPure false

/-- The `while !offsets_found && calibration_step < 20` loop, by
recursion on the remaining step budget. -/
def calibLoop {ε : Type} : Nat → Nat → DriverM ε Unit
  | 0, _ => dPure ()
  | fuel + 1, step =>
      dBind (calibIteration step) fun converged =>
        if converged then dPure () else calibLoop fuel (step + 1)

/-- Mirrors `calibrate_gyro`: zero the hardware offsets, reset the
fine-tune offsets, then run up to 20 calibration steps. Non-convergence
raises no error. -/
def calibrate_gyro {ε : Type} : DriverM ε Unit :=
  dBind (set_gyro_offsets 0 0 0) fun _ =>
  dBind (setFineTune ⟨0, 0, 0⟩) fun _ =>
  calibLoop MAX_CALIBRATION_STEPS 0

/-! ### Derived semantic functions over the bus oracle -/

/-- Bytes of the bus's response to transaction `i`, empty on error. -/
def respBytes {ε : Type} (bus : Nat → Tx → Except ε (List Nat)) (i : Nat) (tx : Tx) : List Nat :=
  match bus i tx with
  | .ok l => l
  | .error _ => []

/-- A bus that never reports a transport failure. -/
def BusTotal {ε : Type} (bus : Nat → Tx → Except ε (List Nat)) : Prop :=
  ∀ i tx, ∃ l, bus i tx = .ok l

/-- The gyro-block read transaction. -/
def gyroReadTx (a : Nat) : Tx := .writeRead a GYRO_REGX_H 6

/-- An offset-register-pair read transaction. -/
def offReadTx (a reg : Nat) : Tx := .writeRead a reg 2

/-- The 3-byte word-write transaction of `write_word`. -/
def wordTx (a reg w : Nat) : Tx := .write a [reg, w / 256 % 256, w % 256]

/-- The raw gyro sample the driver obtains from the `i`-th transaction
when that transaction is the gyro-block read: decoded words plus the
fine-tune offsets, exactly as `read_rot_i32` computes it. -/
def sampleAt {ε : Type} (bus : Nat → Tx → Except ε (List Nat)) (a : Nat) (ft : V3 Int)
    (i : Nat) : V3 Int :=
  decode6 (padTo 6 (respBytes bus i (gyroReadTx a))) + ft

/-- Left fold order sum `f t + f (t+1) + ... + f (t+n-1)`. -/
def sumFrom (f : Nat → V3 Int) (t : Nat) : Nat → V3 Int
  | 0 => ⟨0, 0, 0⟩
  | n + 1 => sumFrom f t n + f (t + n)

/-- The value `calibrate_gyro_mean_sensor` produces when started at
transaction index `t`: the 100 settling samples at `t..t+99` are
discarded and the 1000 samples at `t+100..t+1099` are averaged. -/
def meanAt {ε : Type} (bus : Nat → Tx → Except ε (List Nat)) (a : Nat) (ft : V3 Int)
    (t : Nat) : V3 ℚ :=
  let S := sumFrom (sampleAt bus a ft) (t + 100) MEASURMENT_COUNT
  ⟨(S.x : ℚ) / (MEASURMENT_COUNT : ℚ),
   (S.y : ℚ) / (MEASURMENT_COUNT : ℚ),
   (S.z : ℚ) / (MEASURMENT_COUNT : ℚ)⟩

/-- The decoded hardware offset word the driver reads at transaction `t`. -/
def wordAt {ε : Type} (bus : Nat → Tx → Except ε (List Nat)) (a reg t : Nat) : Int :=
  let l := padTo 2 (respBytes bus t (offReadTx a reg))
  read_word_2c (l.getD 0 0) (l.getD 1 0)

/-- The hardware offset vector `get_gyro_offsets` obtains starting at
transaction index `t`. -/
def offsAt {ε : Type} (bus : Nat → Tx → Except ε (List Nat)) (a t : Nat) : V3 Int :=
  ⟨wordAt bus a XG_OFFS_USRH t, wordAt bus a YG_OFFS_USRH (t + 1),
   wordAt bus a ZG_OFFS_USRH (t + 2)⟩

/-- The callback-argument list produced by `fuel` non-converging steps
starting at `step`, most recent first. -/
def revSteps : Nat → Nat → List Nat
  | 0, _ => []
  | fuel + 1, step => revSteps fuel (step + 1) ++ [step]

/-- Componentwise scalar multiple. -/
def natSmul (n : Nat) (v : V3 Int) : V3 Int := ⟨n * v.x, n * v.y, n * v.z⟩

/-- A bus giving a fixed response to every 6-byte read (`g`), a fixed
response to every other read (`o`), and accepting every write: the
spec's pathological simulated bus whose output ignores the offsets
written to it. -/
def constBus {ε : Type} (g o : List Nat) : Nat → Tx → Except ε (List Nat) := fun _ tx =>
  match tx with
  | .writeRead _ _ 6 => .ok g
  | .writeRead _ _ _ => .ok o
  | .write _ _ => .ok []

/-- A bus alternating between two 6-byte read responses by transaction
parity, used to realise a per-step mean lying exactly on the tolerance
boundary. -/
def parityBus {ε : Type} (g0 g1 o : List Nat) : Nat → Tx → Except ε (List Nat) := fun i tx =>
  match tx with
  | .writeRead _ _ 6 => .ok (if i % 2 = 0 then g0 else g1)
  | .writeRead _ _ _ => .ok o
  | .write _ _ => .ok []

/-- An operation preserves the handle state, the bus oracle and the
callback log (it may only consume transactions). -/
def Preserves {ε α : Type} (m : DriverM ε α) : Prop :=
  ∀ s, (m s).2.mpu = s.mpu ∧ (m s).2.bus = s.bus ∧ (m s).2.cbLog = s.cbLog

/-- The shared read-modify-write shape of `write_bit` and `write_bits`:
read one byte, transform it, write it back. `write_bit reg n en` is
definitionally `rmw reg (fun b => set_bit b n en)`, and `write_bits`
likewise with `set_bits`. -/
def rmw {ε : Type} (reg : Nat) (f : Nat → Nat) : DriverM ε Unit :=
  dBind (read_bytes reg 1) fun b => write_byte reg (f (b.getD 0 0))

/-- The default handle state of a freshly constructed driver (`Mpu6050::new`),
used as the concrete handle of the witness runs. -/
def demoMpu : MpuState :=
  { slave_addr := DEFAULT_SLAVE_ADDR, acc_sensitivity := 16384, gyro_sensitivity := 131,
    gyro_fine_tune_offsets := ⟨0, 0, 0⟩ }

/-- A fresh driver state over a given handle and bus: no transactions
issued yet, empty logs. -/
def mkState (mpu : MpuState) (bus : Nat → Tx → Except Nat (List Nat)) : DState Nat :=
  { mpu := mpu, txIdx := 0, txs := [], cbLog := [], bus := bus }

/-- A concrete state over a bus that accepts everything and answers every
read with zero bytes (witness input). -/
def zeroBusState : DState Nat := mkState demoMpu (constBus [0, 0, 0, 0, 0, 0] [0, 0])

/-- A concrete state over a bus whose every transaction fails with
error 7 (witness input). -/
def failBusState : DState Nat := mkState demoMpu (fun _ _ => .error 7)

/-- A concrete state over the pathological constant bus whose gyro
samples decode to `(2,2,2)` — a mean outside the tolerance band at every
step (witness input). -/
def pathologicalState : DState Nat := mkState demoMpu (constBus [0, 2, 0, 2, 0, 2] [0, 0])

/-- A concrete state over the alternating bus whose gyro samples decode
to `(1,1,1)` and `(2,2,2)` — a per-step mean of exactly 1.5 on every
axis (witness input). -/
def boundaryState : DState Nat :=
  mkState demoMpu (parityBus [0, 1, 0, 1, 0, 1] [0, 2, 0, 2, 0, 2] [0, 0])

/-! ### Small algebraic lemmas -/

theorem V3.add_def (a b : V3 Int) : a + b = ⟨a.x + b.x, a.y + b.y, a.z + b.z⟩ := rfl

theorem V3.add_assoc (a b c : V3 Int) : a + b + c = a + (b + c) := by
  simp [V3.add_def, Int.add_assoc]

theorem V3.add_comm (a b : V3 Int) : a + b = b + a := by
  simp [V3.add_def]; omega

theorem V3.add_zero (a : V3 Int) : a + ⟨0, 0, 0⟩ = a := by
  simp [V3.add_def]

theorem V3.zero_add (a : V3 Int) : (⟨0, 0, 0⟩ : V3 Int) + a = a := by
  simp [V3.add_def]

theorem sumFrom_succ_left (f : Nat → V3 Int) (t n : Nat) :
    sumFrom f t (n + 1) = f t + sumFrom f (t + 1) n := by
  induction n with
  | zero => simp [sumFrom, V3.zero_add, V3.add_zero]
  | succ n ih =>
      show sumFrom f t (n + 1) + f (t + (n + 1)) = _
      rw [ih, V3.add_assoc]
      show _ = f t + (sumFrom f (t + 1) n + f (t + 1 + n))
      have : t + (n + 1) = t + 1 + n := by omega
      rw [this]

theorem sumFrom_congr {f g : Nat → V3 Int} (h : ∀ k, f k = g k) (t n : Nat) :
    sumFrom f t n = sumFrom g t n := by
  induction n with
  | zero => rfl
  | succ n ih => simp [sumFrom, ih, h]

theorem sumFrom_const (v : V3 Int) (t n : Nat) :
    sumFrom (fun _ => v) t n = natSmul n v := by
  induction n with
  | zero => simp [sumFrom, natSmul]
  | succ n ih =>
      simp only [sumFrom, ih, natSmul, V3.add_def, V3.mk.injEq]
      refine ⟨?_, ?_, ?_⟩ <;> push_cast <;> ring

theorem sumFrom_pair {f : Nat → V3 Int} {c : V3 Int} (h : ∀ k, f k + f (k + 1) = c)
    (t m : Nat) : sumFrom f t (2 * m) = natSmul m c := by
  induction m with
  | zero => simp [sumFrom, natSmul]
  | succ m ih =>
      have h2 : 2 * (m + 1) = 2 * m + 1 + 1 := by omega
      rw [h2]
      show sumFrom f t (2 * m + 1) + f (t + (2 * m + 1)) = _
      show sumFrom f t (2 * m) + f (t + 2 * m) + f (t + (2 * m + 1)) = _
      have h3 : t + (2 * m + 1) = (t + 2 * m) + 1 := by omega
      rw [h3, ih, V3.add_assoc, h (t + 2 * m)]
      simp only [natSmul, V3.add_def, V3.mk.injEq]
      refine ⟨?_, ?_, ?_⟩ <;> push_cast <;> ring

theorem revSteps_length (fuel step : Nat) : (revSteps fuel step).length = fuel := by
  induction fuel generalizing step with
  | zero => rfl
  | succ fuel ih => simp [revSteps, ih]

theorem truncToInt_neg (q : ℚ) : truncToInt (-q) = -truncToInt q := by
  rcases lt_trichotomy q 0 with h | h | h
  · rw [truncToInt, truncToInt, if_pos (by linarith), if_neg (by linarith), Int.floor_neg]
  · subst h; simp [truncToInt]
  · rw [truncToInt, truncToInt, if_neg (by linarith), if_pos (by linarith), Int.ceil_neg]

/-! ### Frame lemmas: which operations leave which state components alone -/

theorem preserves_dPure {ε α : Type} (a : α) : Preserves (dPure (ε := ε) a) := by
  intro s; exact ⟨rfl, rfl, rfl⟩

theorem preserves_dGetMpu {ε : Type} : Preserves (dGetMpu (ε := ε)) := by
  intro s; exact ⟨rfl, rfl, rfl⟩

theorem preserves_dBind {ε α β : Type} {m : DriverM ε α} {f : α → DriverM ε β}
    (hm : Preserves m) (hf : ∀ a, Preserves (f a)) : Preserves (dBind m f) := by
  intro s
  unfold dBind
  rcases hrun : m s with ⟨r, s'⟩
  have hs' := hm s
  rw [hrun] at hs'
  cases r with
  | ok a =>
      have hf' := hf a s'
      simp only []
      exact ⟨hf'.1.trans hs'.1, hf'.2.1.trans hs'.2.1, hf'.2.2.trans hs'.2.2⟩
  | error e => exact hs'

theorem preserves_write_raw {ε : Type} (data : List Nat) :
    Preserves (write_raw (ε := ε) data) := by
  intro s
  simp only [write_raw]
  cases h : s.bus s.txIdx (Tx.write s.mpu.slave_addr data) <;> simp [advance]

theorem preserves_read_bytes {ε : Type} (reg len : Nat) :
    Preserves (read_bytes (ε := ε) reg len) := by
  intro s
  simp only [read_bytes]
  cases h : s.bus s.txIdx (Tx.writeRead s.mpu.slave_addr reg len) <;> simp [advance]

theorem preserves_write_byte {ε : Type} (reg byte : Nat) :
    Preserves (write_byte (ε := ε) reg byte) := preserves_write_raw _

theorem preserves_write_word {ε : Type} (reg w : Nat) :
    Preserves (write_word (ε := ε) reg w) := preserves_write_raw _

theorem preserves_write_bit {ε : Type} (reg n : Nat) (en : Bool) :
    Preserves (write_bit (ε := ε) reg n en) :=
  preserves_dBind (preserves_read_bytes _ _) fun _ => preserves_write_byte _ _

theorem preserves_write_bits {ε : Type} (reg sb len data : Nat) :
    Preserves (write_bits (ε := ε) reg sb len data) :=
  preserves_dBind (preserves_read_bytes _ _) fun _ => preserves_write_byte _ _

theorem preserves_read_bit {ε : Type} (reg n : Nat) :
    Preserves (read_bit (ε := ε) reg n) :=
  preserves_dBind (preserves_read_bytes _ _) fun _ => preserves_dPure _

theorem preserves_read_bits {ε : Type} (reg sb len : Nat) :
    Preserves (read_bits (ε := ε) reg sb len) :=
  preserves_dBind (preserves_read_bytes _ _) fun _ => preserves_dPure _

theorem preserves_read_byte {ε : Type} (reg : Nat) :
    Preserves (read_byte (ε := ε) reg) :=
  preserves_dBind (preserves_read_bytes _ _) fun _ => preserves_dPure _

theorem preserves_read_rot_i32 {ε : Type} (reg : Nat) :
    Preserves (read_rot_i32 (ε := ε) reg) :=
  preserves_dBind (preserves_read_bytes _ _) fun _ =>
    preserves_dBind preserves_dGetMpu fun _ => preserves_dPure _

theorem preserves_get_gyro_offsets {ε : Type} :
    Preserves (get_gyro_offsets (ε := ε)) :=
  preserves_dBind (preserves_read_bytes _ _) fun _ =>
    preserves_dBind (preserves_read_bytes _ _) fun _ =>
      preserves_dBind (preserves_read_bytes _ _) fun _ => preserves_dPure _

theorem preserves_set_gyro_offsets {ε : Type} (x y z : Int) :
    Preserves (set_gyro_offsets (ε := ε) x y z) :=
  preserves_dBind (preserves_write_word _ _) fun _ =>
    preserves_dBind (preserves_write_word _ _) fun _ => preserves_write_word _ _

theorem preserves_discardReads {ε : Type} (n : Nat) :
    Preserves (discardReads (ε := ε) n) := by
  induction n with
  | zero => exact preserves_dPure _
  | succ n ih => exact preserves_dBind (preserves_read_rot_i32 _) fun _ => ih

theorem preserves_sumReads {ε : Type} (n : Nat) :
    ∀ acc, Preserves (sumReads (ε := ε) n acc) := by
  induction n with
  | zero => exact fun acc => preserves_dPure _
  | succ n ih =>
      exact fun acc => preserves_dBind (preserves_read_rot_i32 _) fun g => ih (acc + g)

theorem preserves_mean_sensor {ε : Type} :
    Preserves (calibrate_gyro_mean_sensor (ε := ε)) :=
  preserves_dBind (preserves_discardReads _) fun _ =>
    preserves_dBind (preserves_sumReads _ _) fun _ => preserves_dPure _

/-! ### Success-path characterisations of the driver operations -/

theorem read_bytes_run {ε : Type} (s : DState ε) (reg len : Nat) {l : List Nat}
    (hl : s.bus s.txIdx (Tx.writeRead s.mpu.slave_addr reg len) = .ok l) :
    read_bytes reg len s =
      (.ok (padTo len l), advance s (Tx.writeRead s.mpu.slave_addr reg len)) := by
  simp only [read_bytes, hl]

theorem read_bytes_err {ε : Type} (s : DState ε) (reg len : Nat) {e : ε}
    (he : s.bus s.txIdx (Tx.writeRead s.mpu.slave_addr reg len) = .error e) :
    read_bytes reg len s =
      (.error e, advance s (Tx.writeRead s.mpu.slave_addr reg len)) := by
  simp only [read_bytes, he]

theorem write_raw_run {ε : Type} (s : DState ε) (data : List Nat) {l : List Nat}
    (hl : s.bus s.txIdx (Tx.write s.mpu.slave_addr data) = .ok l) :
    write_raw data s = (.ok (), advance s (Tx.write s.mpu.slave_addr data)) := by
  simp only [write_raw, hl]

theorem write_raw_err {ε : Type} (s : DState ε) (data : List Nat) {e : ε}
    (he : s.bus s.txIdx (Tx.write s.mpu.slave_addr data) = .error e) :
    write_raw data s = (.error e, advance s (Tx.write s.mpu.slave_addr data)) := by
  simp only [write_raw, he]

theorem write_word_run {ε : Type} (s : DState ε) (reg w : Nat) (h : BusTotal s.bus) :
    write_word reg w s = (.ok (), advance s (wordTx s.mpu.slave_addr reg w)) := by
  obtain ⟨l, hl⟩ := h s.txIdx (Tx.write s.mpu.slave_addr [reg, w / 256 % 256, w % 256])
  exact write_raw_run s _ hl

theorem read_rot_i32_run {ε : Type} (s : DState ε) (h : BusTotal s.bus) :
    read_rot_i32 GYRO_REGX_H s =
      (.ok (sampleAt s.bus s.mpu.slave_addr s.mpu.gyro_fine_tune_offsets s.txIdx),
       advance s (gyroReadTx s.mpu.slave_addr)) := by
  obtain ⟨l, hl⟩ := h s.txIdx (Tx.writeRead s.mpu.slave_addr GYRO_REGX_H 6)
  simp only [read_rot_i32, dBind, read_bytes_run s GYRO_REGX_H 6 hl, dGetMpu, dPure,
    sampleAt, respBytes, gyroReadTx, hl, decode6, V3.add_def, advance]

theorem discardReads_run {ε : Type} (n : Nat) (s : DState ε) (h : BusTotal s.bus) :
    ∃ l, discardReads n s = (.ok (), { s with txIdx := s.txIdx + n, txs := l }) := by
  induction n generalizing s with
  | zero => exact ⟨s.txs, rfl⟩
  | succ n ih =>
      obtain ⟨l, hl⟩ := ih (advance s (gyroReadTx s.mpu.slave_addr)) h
      refine ⟨l, ?_⟩
      simp only [discardReads, dBind, read_rot_i32_run s h]
      rw [hl]
      simp only [advance, Prod.mk.injEq, DState.mk.injEq, true_and, and_true]
      omega

theorem sumReads_run {ε : Type} (n : Nat) (acc : V3 Int) (s : DState ε)
    (h : BusTotal s.bus) :
    ∃ l, sumReads n acc s =
      (.ok (acc + sumFrom (sampleAt s.bus s.mpu.slave_addr s.mpu.gyro_fine_tune_offsets)
              s.txIdx n),
       { s with txIdx := s.txIdx + n, txs := l }) := by
  induction n generalizing acc s with
  | zero => exact ⟨s.txs, by simp [sumReads, dPure, sumFrom, V3.add_zero]⟩
  | succ n ih =>
      obtain ⟨l, hl⟩ := ih
        (acc + sampleAt s.bus s.mpu.slave_addr s.mpu.gyro_fine_tune_offsets s.txIdx)
        (advance s (gyroReadTx s.mpu.slave_addr)) h
      refine ⟨l, ?_⟩
      simp only [sumReads, dBind, read_rot_i32_run s h]
      rw [hl]
      simp only [advance, Prod.mk.injEq, DState.mk.injEq, true_and, and_true,
        Except.ok.injEq]
      constructor
      · rw [sumFrom_succ_left, ← V3.add_assoc]
      · omega

theorem mean_sensor_run {ε : Type} (s : DState ε) (h : BusTotal s.bus) :
    ∃ l, calibrate_gyro_mean_sensor s =
      (.ok (meanAt s.bus s.mpu.slave_addr s.mpu.gyro_fine_tune_offsets s.txIdx),
       { s with txIdx := s.txIdx + 1100, txs := l }) := by
  obtain ⟨l₁, h₁⟩ := discardReads_run 100 s h
  have hbus : ({ s with txIdx := s.txIdx + 100, txs := l₁ } : DState ε).bus = s.bus := rfl
  obtain ⟨l₂, h₂⟩ := sumReads_run MEASURMENT_COUNT ⟨0, 0, 0⟩
    { s with txIdx := s.txIdx + 100, txs := l₁ } (by rw [hbus]; exact h)
  refine ⟨l₂, ?_⟩
  simp only [calibrate_gyro_mean_sensor, dBind, h₁]
  rw [h₂]
  simp only [dPure, meanAt, V3.zero_add, Prod.mk.injEq, DState.mk.injEq, true_and,
    and_true, Except.ok.injEq, MEASURMENT_COUNT]

theorem get_gyro_offsets_run {ε : Type} (s : DState ε) (h : BusTotal s.bus) :
    get_gyro_offsets s =
      (.ok (offsAt s.bus s.mpu.slave_addr s.txIdx),
       { s with txIdx := s.txIdx + 3,
                txs := offReadTx s.mpu.slave_addr ZG_OFFS_USRH ::
                  offReadTx s.mpu.slave_addr YG_OFFS_USRH ::
                  offReadTx s.mpu.slave_addr XG_OFFS_USRH :: s.txs }) := by
  obtain ⟨lx, hx⟩ := h s.txIdx (Tx.writeRead s.mpu.slave_addr XG_OFFS_USRH 2)
  obtain ⟨ly, hy⟩ := h (s.txIdx + 1) (Tx.writeRead s.mpu.slave_addr YG_OFFS_USRH 2)
  obtain ⟨lz, hz⟩ := h (s.txIdx + 2) (Tx.writeRead s.mpu.slave_addr ZG_OFFS_USRH 2)
  simp only [get_gyro_offsets, dBind, read_bytes, advance, hx, hy, hz, dPure,
    offsAt, wordAt, respBytes, offReadTx, Prod.mk.injEq, DState.mk.injEq]

theorem set_gyro_offsets_run {ε : Type} (s : DState ε) (x y z : Int)
    (h : BusTotal s.bus) :
    set_gyro_offsets x y z s =
      (.ok (),
       { s with txIdx := s.txIdx + 3,
                txs := wordTx s.mpu.slave_addr ZG_OFFS_USRH (i16ToU16 z) ::
                  wordTx s.mpu.slave_addr YG_OFFS_USRH (i16ToU16 y) ::
                  wordTx s.mpu.slave_addr XG_OFFS_USRH (i16ToU16 x) :: s.txs }) := by
  obtain ⟨lx, hx⟩ := h s.txIdx
    (Tx.write s.mpu.slave_addr [XG_OFFS_USRH, i16ToU16 x / 256 % 256, i16ToU16 x % 256])
  obtain ⟨ly, hy⟩ := h (s.txIdx + 1)
    (Tx.write s.mpu.slave_addr [YG_OFFS_USRH, i16ToU16 y / 256 % 256, i16ToU16 y % 256])
  obtain ⟨lz, hz⟩ := h (s.txIdx + 2)
    (Tx.write s.mpu.slave_addr [ZG_OFFS_USRH, i16ToU16 z / 256 % 256, i16ToU16 z % 256])
  simp only [set_gyro_offsets, dBind, write_word, write_raw, advance, hx, hy, hz,
    wordTx, Prod.mk.injEq, DState.mk.injEq]

theorem calibIteration_run {ε : Type} (step : Nat) (s : DState ε) (h : BusTotal s.bus) :
    (calibIteration step s).1 =
      .ok (inBand (meanAt s.bus s.mpu.slave_addr s.mpu.gyro_fine_tune_offsets s.txIdx)) ∧
    (calibIteration step s).2.mpu =
      (if inBand (meanAt s.bus s.mpu.slave_addr s.mpu.gyro_fine_tune_offsets s.txIdx) then
        { s.mpu with gyro_fine_tune_offsets :=
            fineTuneOfMean (meanAt s.bus s.mpu.slave_addr s.mpu.gyro_fine_tune_offsets
              s.txIdx) }
      else s.mpu) ∧
    (calibIteration step s).2.txIdx = s.txIdx + 1106 ∧
    (calibIteration step s).2.cbLog = step :: s.cbLog ∧
    (calibIteration step s).2.bus = s.bus := by
  obtain ⟨l₁, h₁⟩ := mean_sensor_run s h
  have h₂ := get_gyro_offsets_run { s with txIdx := s.txIdx + 1100, txs := l₁ } h
  dsimp only at h₂
  have h₃ := set_gyro_offsets_run
    { s with txIdx := s.txIdx + 1100 + 3,
             txs := offReadTx s.mpu.slave_addr ZG_OFFS_USRH ::
               offReadTx s.mpu.slave_addr YG_OFFS_USRH ::
               offReadTx s.mpu.slave_addr XG_OFFS_USRH :: l₁ }
    (toI16 (updV (offsAt s.bus s.mpu.slave_addr (s.txIdx + 1100))
        (meanAt s.bus s.mpu.slave_addr s.mpu.gyro_fine_tune_offsets s.txIdx)).x)
    (toI16 (updV (offsAt s.bus s.mpu.slave_addr (s.txIdx + 1100))
        (meanAt s.bus s.mpu.slave_addr s.mpu.gyro_fine_tune_offsets s.txIdx)).y)
    (toI16 (updV (offsAt s.bus s.mpu.slave_addr (s.txIdx + 1100))
        (meanAt s.bus s.mpu.slave_addr s.mpu.gyro_fine_tune_offsets s.txIdx)).z)
    h
  dsimp only at h₃
  simp only [calibIteration, dBind, h₁, h₂, h₃, invokeCallback]
  cases hB : inBand (meanAt s.bus s.mpu.slave_addr s.mpu.gyro_fine_tune_offsets s.txIdx) with
  | false =>
      simp only [Bool.false_eq_true, if_false, dPure]
      and_intros <;> trivial
  | true =>
      simp only [eq_self_iff_true, if_true, setFineTune, dBind, dPure]
      and_intros <;> trivial

theorem calibLoop_run_noconv {ε : Type} {bus : Nat → Tx → Except ε (List Nat)} {a : Nat}
    {M : V3 ℚ} (h : BusTotal bus) (hM : ∀ t, meanAt bus a ⟨0, 0, 0⟩ t = M)
    (hband : inBand M = false) :
    ∀ fuel step (s : DState ε), s.bus = bus → s.mpu.slave_addr = a →
      s.mpu.gyro_fine_tune_offsets = ⟨0, 0, 0⟩ →
      (calibLoop fuel step s).1 = .ok () ∧
      (calibLoop fuel step s).2.mpu = s.mpu ∧
      (calibLoop fuel step s).2.cbLog = revSteps fuel step ++ s.cbLog ∧
      (calibLoop fuel step s).2.bus = bus := by
  intro fuel
  induction fuel with
  | zero =>
      intro step s hb ha hf
      simp [calibLoop, dPure, revSteps, hb]
  | succ fuel ih =>
      intro step s hb ha hf
      have hIt := calibIteration_run step s (hb ▸ h)
      rw [hb, ha, hf, hM, hband] at hIt
      simp only [Bool.false_eq_true, if_false] at hIt
      obtain ⟨h1, h2, h3, h4, h5⟩ := hIt
      rcases hpair : calibIteration step s with ⟨r, s₁⟩
      rw [hpair] at h1 h2 h3 h4 h5
      obtain rfl : r = .ok false := h1
      simp only [calibLoop, dBind, hpair, Bool.false_eq_true, if_false]
      obtain ⟨g1, g2, g3, g4⟩ := ih (step + 1) s₁ h5 (by rw [h2]; exact ha)
        (by rw [h2]; exact hf)
      refine ⟨g1, ?_, ?_, g4⟩
      · rw [g2, h2]
      · rw [g3, h4]
        simp [revSteps, List.append_assoc]

theorem calibrate_gyro_run_noconv {ε : Type} {bus : Nat → Tx → Except ε (List Nat)}
    {a : Nat} {M : V3 ℚ} (h : BusTotal bus) (hM : ∀ t, meanAt bus a ⟨0, 0, 0⟩ t = M)
    (hband : inBand M = false) :
    ∀ s : DState ε, s.bus = bus → s.mpu.slave_addr = a →
      (calibrate_gyro s).1 = .ok () ∧
      (calibrate_gyro s).2.mpu = { s.mpu with gyro_fine_tune_offsets := ⟨0, 0, 0⟩ } ∧
      (calibrate_gyro s).2.cbLog = revSteps 20 0 ++ s.cbLog := by
  intro s hb ha
  have h₀ := set_gyro_offsets_run s 0 0 0 (hb ▸ h)
  simp only [calibrate_gyro, dBind, h₀, setFineTune, dPure, MAX_CALIBRATION_STEPS]
  have hcomp := calibLoop_run_noconv h hM hband 20 0
    { s with mpu := { s.mpu with gyro_fine_tune_offsets := ⟨0, 0, 0⟩ },
             txIdx := s.txIdx + 3,
             txs := wordTx s.mpu.slave_addr ZG_OFFS_USRH (i16ToU16 0) ::
               wordTx s.mpu.slave_addr YG_OFFS_USRH (i16ToU16 0) ::
               wordTx s.mpu.slave_addr XG_OFFS_USRH (i16ToU16 0) :: s.txs }
    hb ha rfl
  obtain ⟨g1, g2, g3, g4⟩ := hcomp
  exact ⟨g1, g2, g3⟩

theorem two_mean_sensor_txIdx {ε : Type} (s : DState ε) (h : BusTotal s.bus) :
    (dBind calibrate_gyro_mean_sensor (fun _ => calibrate_gyro_mean_sensor) s).2.txIdx =
      s.txIdx + 2200 := by
  obtain ⟨l₁, h₁⟩ := mean_sensor_run s h
  obtain ⟨l₂, h₂⟩ := mean_sensor_run { s with txIdx := s.txIdx + 1100, txs := l₁ } h
  simp only [dBind, h₁]
  rw [h₂]

theorem calibIteration_cases {ε : Type} (step : Nat) (s : DState ε) :
    (calibIteration step s).2.bus = s.bus ∧
    ((calibIteration step s).2.cbLog = s.cbLog ∨
      (calibIteration step s).2.cbLog = step :: s.cbLog) ∧
    ((calibIteration step s).2.mpu = s.mpu ∨
      ∃ m, inBand m = true ∧ (calibIteration step s).1 = .ok true ∧
        (calibIteration step s).2.mpu =
          { s.mpu with gyro_fine_tune_offsets := fineTuneOfMean m }) := by
  unfold calibIteration
  rcases h1 : calibrate_gyro_mean_sensor s with ⟨r1, s1⟩
  obtain ⟨p1m, p1b, p1c⟩ :
      s1.mpu = s.mpu ∧ s1.bus = s.bus ∧ s1.cbLog = s.cbLog := by
    have := preserves_mean_sensor s; rw [h1] at this; exact this
  cases r1 with
  | error e =>
      simp only [dBind, h1]
      exact ⟨p1b, Or.inl p1c, Or.inl p1m⟩
  | ok m =>
      rcases h2 : get_gyro_offsets s1 with ⟨r2, s2⟩
      obtain ⟨p2m, p2b, p2c⟩ :
          s2.mpu = s1.mpu ∧ s2.bus = s1.bus ∧ s2.cbLog = s1.cbLog := by
        have := preserves_get_gyro_offsets s1; rw [h2] at this; exact this
      cases r2 with
      | error e =>
          simp only [dBind, h1, h2]
          exact ⟨p2b.trans p1b, Or.inl (p2c.trans p1c), Or.inl (p2m.trans p1m)⟩
      | ok o =>
          rcases h3 : set_gyro_offsets (toI16 (updV o m).x) (toI16 (updV o m).y)
            (toI16 (updV o m).z) s2 with ⟨r3, s3⟩
          obtain ⟨p3m, p3b, p3c⟩ :
              s3.mpu = s2.mpu ∧ s3.bus = s2.bus ∧ s3.cbLog = s2.cbLog := by
            have := preserves_set_gyro_offsets (toI16 (updV o m).x) (toI16 (updV o m).y)
              (toI16 (updV o m).z) s2
            rw [h3] at this
            exact this
          cases r3 with
          | error e =>
              simp only [dBind, h1, h2, h3]
              exact ⟨p3b.trans (p2b.trans p1b), Or.inl (p3c.trans (p2c.trans p1c)),
                Or.inl (p3m.trans (p2m.trans p1m))⟩
          | ok u =>
              simp only [dBind, h1, h2, h3, invokeCallback]
              cases hB : inBand m with
              | false =>
                  simp only [Bool.false_eq_true, if_false, dPure]
                  refine ⟨p3b.trans (p2b.trans p1b), ?_, ?_⟩
                  · exact Or.inr (by rw [p3c, p2c, p1c])
                  · exact Or.inl (p3m.trans (p2m.trans p1m))
              | true =>
                  simp only [eq_self_iff_true, if_true, setFineTune, dBind, dPure]
                  refine ⟨p3b.trans (p2b.trans p1b), ?_, ?_⟩
                  · exact Or.inr (by rw [p3c, p2c, p1c])
                  · exact Or.inr ⟨m, hB, by trivial, by rw [p3m, p2m, p1m]⟩

theorem calibLoop_cases {ε : Type} :
    ∀ fuel step (s : DState ε),
      ((calibLoop fuel step s).2.mpu = s.mpu ∨
        ∃ m, inBand m = true ∧ (calibLoop fuel step s).1 = .ok () ∧
          (calibLoop fuel step s).2.mpu =
            { s.mpu with gyro_fine_tune_offsets := fineTuneOfMean m }) ∧
      (calibLoop fuel step s).2.cbLog.length ≤ fuel + s.cbLog.length := by
  intro fuel
  induction fuel with
  | zero => intro step s; simp [calibLoop, dPure]
  | succ fuel ih =>
      intro step s
      rcases hIt : calibIteration step s with ⟨r, s₁⟩
      obtain ⟨hb, hcb, hmpu⟩ := by
        have := calibIteration_cases step s; rw [hIt] at this; exact this
      have hlen : s₁.cbLog.length ≤ 1 + s.cbLog.length := by
        rcases hcb with h | h
        · rw [h]; omega
        · rw [h]; simp only [List.length_cons]; omega
      simp only [calibLoop, dBind, hIt]
      cases r with
      | error e =>
          refine ⟨?_, show s₁.cbLog.length ≤ fuel + 1 + s.cbLog.length by omega⟩
          rcases hmpu with h | ⟨m, _, habs, _⟩
          · exact Or.inl h
          · exact absurd habs (by simp)
      | ok c =>
          cases c with
          | true =>
              simp only [eq_self_iff_true, if_true, dPure]
              refine ⟨?_, show s₁.cbLog.length ≤ fuel + 1 + s.cbLog.length by omega⟩
              rcases hmpu with h | ⟨m, hm, _, hmp⟩
              · exact Or.inl h
              · exact Or.inr ⟨m, hm, by trivial, hmp⟩
          | false =>
              simp only [Bool.false_eq_true, if_false]
              obtain ⟨imps, ilen⟩ := ih (step + 1) s₁
              have hs₁m : s₁.mpu = s.mpu := by
                rcases hmpu with h | ⟨m, _, habs, _⟩
                · exact h
                · exact absurd habs (by simp)
              refine ⟨?_, ?_⟩
              · rcases imps with h | ⟨m, hm, hr, hmp⟩
                · exact Or.inl (h.trans hs₁m)
                · exact Or.inr ⟨m, hm, hr, by rw [hmp, hs₁m]⟩
              · calc (calibLoop fuel (step + 1) s₁).2.cbLog.length
                    ≤ fuel + s₁.cbLog.length := ilen
                  _ ≤ fuel + 1 + s.cbLog.length := by omega

theorem set_gyro_range_ft {ε : Type} (sens : GyroRange → ℚ) (r : GyroRange)
    (s : DState ε) :
    (set_gyro_range sens r s).2.mpu.gyro_fine_tune_offsets =
      s.mpu.gyro_fine_tune_offsets ∧
    (set_gyro_range sens r s).2.mpu.acc_sensitivity = s.mpu.acc_sensitivity := by
  unfold set_gyro_range
  rcases h : write_bits GYRO_CONFIG_ADDR FS_SEL_BIT FS_SEL_LENGTH r.code s with ⟨r1, s1⟩
  have p : s1.mpu = s.mpu := by
    have := preserves_write_bits (ε := ε) GYRO_CONFIG_ADDR FS_SEL_BIT FS_SEL_LENGTH
      r.code s
    rw [h] at this
    exact this.1
  cases r1 <;> simp [dBind, h, p]

theorem set_accel_range_ft {ε : Type} (sens : AccelRange → ℚ) (r : AccelRange)
    (s : DState ε) :
    (set_accel_range sens r s).2.mpu.gyro_fine_tune_offsets =
      s.mpu.gyro_fine_tune_offsets ∧
    (set_accel_range sens r s).2.mpu.gyro_sensitivity = s.mpu.gyro_sensitivity := by
  unfold set_accel_range
  rcases h : write_bits ACCEL_CONFIG_ADDR FS_SEL_BIT FS_SEL_LENGTH r.code s with ⟨r1, s1⟩
  have p : s1.mpu = s.mpu := by
    have := preserves_write_bits (ε := ε) ACCEL_CONFIG_ADDR FS_SEL_BIT FS_SEL_LENGTH
      r.code s
    rw [h] at this
    exact this.1
  cases r1 <;> simp [dBind, h, p]

/-! ### Concrete buses -/

theorem constBus_total {ε : Type} (g o : List Nat) : BusTotal (constBus (ε := ε) g o) := by
  intro i tx
  simp only [constBus]
  split <;> exact ⟨_, rfl⟩

theorem parityBus_total {ε : Type} (g0 g1 o : List Nat) :
    BusTotal (parityBus (ε := ε) g0 g1 o) := by
  intro i tx
  simp only [parityBus]
  split <;> exact ⟨_, rfl⟩

theorem sampleAt_constBus {ε : Type} (g o : List Nat) (a : Nat) (ft : V3 Int) (i : Nat) :
    sampleAt (constBus (ε := ε) g o) a ft i = decode6 (padTo 6 g) + ft := rfl

theorem meanAt_constBus {ε : Type} (g o : List Nat) (a : Nat) (t : Nat) :
    meanAt (constBus (ε := ε) g o) a ⟨0, 0, 0⟩ t =
      ⟨((decode6 (padTo 6 g)).x : ℚ), ((decode6 (padTo 6 g)).y : ℚ),
       ((decode6 (padTo 6 g)).z : ℚ)⟩ := by
  unfold meanAt
  rw [sumFrom_congr (g := fun _ => decode6 (padTo 6 g))
    (fun k => by rw [sampleAt_constBus, V3.add_zero]), sumFrom_const]
  simp only [natSmul, MEASURMENT_COUNT, V3.mk.injEq]
  refine ⟨?_, ?_, ?_⟩ <;> (push_cast; ring_nf)

theorem sampleAt_parityBus {ε : Type} (g0 g1 o : List Nat) (a : Nat) (ft : V3 Int)
    (k : Nat) :
    sampleAt (parityBus (ε := ε) g0 g1 o) a ft k =
      if k % 2 = 0 then decode6 (padTo 6 g0) + ft else decode6 (padTo 6 g1) + ft := by
  by_cases h : k % 2 = 0 <;> simp [sampleAt, respBytes, parityBus, gyroReadTx, h]

theorem meanAt_parityBus {ε : Type} (g0 g1 o : List Nat) (a : Nat) (t : Nat) :
    meanAt (parityBus (ε := ε) g0 g1 o) a ⟨0, 0, 0⟩ t =
      ⟨((decode6 (padTo 6 g0) + decode6 (padTo 6 g1)).x : ℚ) / 2,
       ((decode6 (padTo 6 g0) + decode6 (padTo 6 g1)).y : ℚ) / 2,
       ((decode6 (padTo 6 g0) + decode6 (padTo 6 g1)).z : ℚ) / 2⟩ := by
  have hpair : ∀ k, sampleAt (parityBus (ε := ε) g0 g1 o) a ⟨0, 0, 0⟩ k +
      sampleAt (parityBus (ε := ε) g0 g1 o) a ⟨0, 0, 0⟩ (k + 1) =
      decode6 (padTo 6 g0) + decode6 (padTo 6 g1) := by
    intro k
    rcases Nat.even_or_odd k with he | ho
    · have h0 : k % 2 = 0 := Nat.even_iff.mp he
      have h1 : (k + 1) % 2 ≠ 0 := by omega
      rw [sampleAt_parityBus, sampleAt_parityBus, if_pos h0, if_neg h1,
        V3.add_zero, V3.add_zero]
    · have h0 : k % 2 ≠ 0 := by
        have := Nat.odd_iff.mp ho; omega
      have h1 : (k + 1) % 2 = 0 := by
        have := Nat.odd_iff.mp ho; omega
      rw [sampleAt_parityBus, sampleAt_parityBus, if_neg h0, if_pos h1,
        V3.add_zero, V3.add_zero, V3.add_comm]
  unfold meanAt
  have h1000 : MEASURMENT_COUNT = 2 * 500 := by norm_num [MEASURMENT_COUNT]
  rw [h1000, sumFrom_pair hpair]
  simp only [natSmul, MEASURMENT_COUNT, V3.mk.injEq, h1000]
  refine ⟨?_, ?_, ?_⟩ <;> (push_cast; ring)

theorem calibrate_gyro_cbLog_le {ε : Type} (s : DState ε) :
    (calibrate_gyro s).2.cbLog.length ≤ 20 + s.cbLog.length := by
  rcases h0 : set_gyro_offsets 0 0 0 s with ⟨r0, s0⟩
  have p0 : s0.cbLog = s.cbLog := by
    have := preserves_set_gyro_offsets (ε := ε) 0 0 0 s
    rw [h0] at this
    exact this.2.2
  unfold calibrate_gyro
  simp only [dBind, h0, setFineTune, MAX_CALIBRATION_STEPS]
  cases r0 with
  | error e0 => rw [p0]; omega
  | ok u =>
      have hloop := (calibLoop_cases (ε := ε) 20 0
        { s0 with mpu := { s0.mpu with gyro_fine_tune_offsets := ⟨0, 0, 0⟩ } }).2
      refine le_trans hloop ?_
      have h2 : s0.cbLog.length = s.cbLog.length := by rw [p0]
      show 20 + s0.cbLog.length ≤ 20 + s.cbLog.length
      omega

/-- Claim C2 theorem. The calibration loop ends when convergence is
reached or the step counter reaches 20, whichever comes first: against
any bus, at most 20 progress-callback invocations happen; against a bus
whose (constant) mean never enters the `±1.5` tolerance band, the engine
performs exactly 20 steps and then returns success, raising no error for
non-convergence. -/
theorem c2_calibrate_terminates_after_20_steps_on_pathological_bus {ε : Type}
    (g o : List Nat) (s : DState ε) (hb : s.bus = constBus g o)
    (hband : inBand ⟨((decode6 (padTo 6 g)).x : ℚ), ((decode6 (padTo 6 g)).y : ℚ),
      ((decode6 (padTo 6 g)).z : ℚ)⟩ = false) :
    (calibrate_gyro s).1 = .ok () ∧
    (calibrate_gyro s).2.cbLog.length = 20 + s.cbLog.length ∧
    (∀ s' : DState ε, (calibrate_gyro s').2.cbLog.length ≤ 20 + s'.cbLog.length) := by
  obtain ⟨g1, g2, g3⟩ := calibrate_gyro_run_noconv (constBus_total g o)
    (meanAt_constBus g o s.mpu.slave_addr) hband s hb rfl
  refine ⟨g1, ?_, fun s' => calibrate_gyro_cbLog_le s'⟩
  rw [g3]
  simp [revSteps_length]

theorem rmw_run {ε : Type} (s : DState ε) (reg : Nat) (f : Nat → Nat) :
    (∀ e, s.bus s.txIdx (Tx.writeRead s.mpu.slave_addr reg 1) = .error e →
      rmw reg f s = (.error e, advance s (Tx.writeRead s.mpu.slave_addr reg 1))) ∧
    (∀ l, s.bus s.txIdx (Tx.writeRead s.mpu.slave_addr reg 1) = .ok l →
      (rmw reg f s).2.txs =
        Tx.write s.mpu.slave_addr [reg, f ((padTo 1 l).getD 0 0)] ::
          Tx.writeRead s.mpu.slave_addr reg 1 :: s.txs ∧
      (rmw reg f s).2.txIdx = s.txIdx + 2 ∧
      (∀ e, s.bus (s.txIdx + 1)
          (Tx.write s.mpu.slave_addr [reg, f ((padTo 1 l).getD 0 0)]) = .error e →
        (rmw reg f s).1 = .error e) ∧
      (∀ l₂, s.bus (s.txIdx + 1)
          (Tx.write s.mpu.slave_addr [reg, f ((padTo 1 l).getD 0 0)]) = .ok l₂ →
        (rmw reg f s).1 = .ok ())) := by
  constructor
  · intro e he
    simp only [rmw, dBind, read_bytes_err s reg 1 he]
  · intro l hl
    have h1 := read_bytes_run s reg 1 hl
    refine ⟨?_, ?_, ?_, ?_⟩
    · simp only [rmw, dBind, h1, write_byte, write_raw, advance]
      cases h2 : s.bus (s.txIdx + 1)
        (Tx.write s.mpu.slave_addr [reg, f ((padTo 1 l).getD 0 0)]) <;> simp [h2]
    · simp only [rmw, dBind, h1, write_byte, write_raw, advance]
      cases h2 : s.bus (s.txIdx + 1)
        (Tx.write s.mpu.slave_addr [reg, f ((padTo 1 l).getD 0 0)]) <;> simp [h2]
    · intro e h2
      simp only [rmw, dBind, h1, write_byte, write_raw, advance, h2]
    · intro l₂ h2
      simp only [rmw, dBind, h1, write_byte, write_raw, advance, h2]

/-! ### Claim C1 -/

/-- Claim C1 (code bug). The spec says accelerometer reads receive no
fine-tune addition, but `get_acc`'s underlying integer read
(`read_rot_i32` at the accelerometer block) shares the gyro read path
and adds `gyro_fine_tune_offsets` to every axis. Evaluated at the
failing input — fine-tune offsets `(1,2,3)`, a bus answering the
accelerometer read with six zero bytes — the integer vector underlying
`get_acc` is `(1,2,3)`, while the three decoded words are `(0,0,0)`. -/
theorem c1_acc_read_adds_fine_tune_at_failing_input :
    (read_rot_i32 ACC_REGX_H
      (mkState { demoMpu with gyro_fine_tune_offsets := ⟨1, 2, 3⟩ }
        (constBus [0, 0, 0, 0, 0, 0] [0, 0]))).1 = .ok ⟨1, 2, 3⟩ ∧
    decode6 (padTo 6 [0, 0, 0, 0, 0, 0]) = ⟨0, 0, 0⟩ ∧
    (⟨1, 2, 3⟩ : V3 Int) ≠ (⟨0, 0, 0⟩ : V3 Int) := by
  exact ⟨rfl, by decide, by decide⟩

/-! ### Claim C5 -/

/-- Claim C5. `read_word_2c` over any 2 input bytes computes
`(bytes[0] << 8) | bytes[1]` and reinterprets values at or above 32768
as `value - 65536`; the four spec test vectors hold and every result
lies in `[-32768, 32767]`. -/
theorem c5_read_word_2c_decode :
    (∀ b0 b1 : Nat, b0 < 256 → b1 < 256 →
      read_word_2c b0 b1 =
        (if (b0 : Int) * 256 + b1 ≥ 32768 then (b0 : Int) * 256 + b1 - 65536
         else (b0 : Int) * 256 + b1) ∧
      -32768 ≤ read_word_2c b0 b1 ∧ read_word_2c b0 b1 ≤ 32767) ∧
    read_word_2c 0 0 = 0 ∧ read_word_2c 127 255 = 32767 ∧
    read_word_2c 128 0 = -32768 ∧ read_word_2c 255 255 = -1 := by
  refine ⟨?_, by decide, by decide, by decide, by decide⟩
  intro b0 b1 hb0 hb1
  simp only [read_word_2c]
  refine ⟨?_, ?_, ?_⟩ <;> split <;> try split
  all_goals push_cast
  all_goals omega

/-- Witness for claim C5 at bytes 2 and 3. -/
theorem c5_witness :
    read_word_2c 2 3 =
      (if ((2 : Nat) : Int) * 256 + 3 ≥ 32768 then ((2 : Nat) : Int) * 256 + 3 - 65536
       else ((2 : Nat) : Int) * 256 + 3) ∧
    -32768 ≤ read_word_2c 2 3 ∧ read_word_2c 2 3 ≤ 32767 :=
  c5_read_word_2c_decode.1 2 3 (by decide) (by decide)

/-! ### Claim C3 -/

/-- Claim C3. In each calibration step, per axis: a mean with absolute
value above 1.5 moves the offset by the truncation of
`sign(mean) * max(|mean| / 4, 1)`, a mean within the band leaves the
offset unchanged, and the three offsets are written back to the offset
register pairs as 16-bit words. -/
theorem c3_offset_adjust_formula {ε : Type} :
    (∀ (o : Int) (m : ℚ), 3 / 2 < |m| →
      updAxis o m = o - truncToInt (qSignum m * max (|m| / 4) 1)) ∧
    (∀ (o : Int) (m : ℚ), |m| ≤ 3 / 2 → updAxis o m = o) ∧
    (∀ (s : DState ε) (x y z : Int), BusTotal s.bus →
      set_gyro_offsets x y z s =
        (.ok (),
         { s with txIdx := s.txIdx + 3,
                  txs := wordTx s.mpu.slave_addr ZG_OFFS_USRH (i16ToU16 z) ::
                    wordTx s.mpu.slave_addr YG_OFFS_USRH (i16ToU16 y) ::
                    wordTx s.mpu.slave_addr XG_OFFS_USRH (i16ToU16 x) :: s.txs })) ∧
    (∀ v : Int, i16ToU16 v < 65536) := by
  refine ⟨?_, ?_, ?_, ?_⟩
  · intro o m h
    unfold updAxis TARGET_MAX_MEASUREMENT_MEAN
    rw [if_pos h]
  · intro o m h
    unfold updAxis TARGET_MAX_MEASUREMENT_MEAN
    rw [if_neg (not_lt.mpr h)]
  · intro s x y z h
    exact set_gyro_offsets_run s x y z h
  · intro v
    unfold i16ToU16
    have h1 := Int.emod_nonneg v (by norm_num : (65536 : ℤ) ≠ 0)
    have h2 := Int.emod_lt_of_pos v (by norm_num : (0 : ℤ) < 65536)
    omega

theorem q_abs8_gt : (3 : ℚ) / 2 < |(8 : ℚ)| := by norm_num

theorem q_abs1_le : |(1 : ℚ)| ≤ (3 : ℚ) / 2 := by norm_num

/-- Witness for claim C3: an out-of-band axis, an in-band axis, a
write-back on a total bus, and a word bound. -/
theorem c3_witness :
    updAxis 10 8 = 10 - truncToInt (qSignum 8 * max (|(8 : ℚ)| / 4) 1) ∧
    updAxis 10 1 = 10 ∧
    (set_gyro_offsets 2 3 4 (mkState demoMpu (constBus [0, 0] [0, 0]))).1 = .ok () ∧
    i16ToU16 5 < 65536 := by
  refine ⟨(c3_offset_adjust_formula (ε := Nat)).1 10 8 q_abs8_gt,
    (c3_offset_adjust_formula (ε := Nat)).2.1 10 1 q_abs1_le, ?_,
    (c3_offset_adjust_formula (ε := Nat)).2.2.2 5⟩
  rw [(c3_offset_adjust_formula (ε := Nat)).2.2.1
    (mkState demoMpu (constBus [0, 0] [0, 0])) 2 3 4 (constBus_total _ _)]

/-! ### Claim C9 -/

/-- Claim C9. Each call to `write_bit` or `write_bits` issues exactly one
read transaction followed by exactly one single-byte write transaction;
a failure of the read propagates verbatim with no write issued, and a
failure of the write propagates verbatim. -/
theorem c9_write_bit_bits_transactions {ε : Type} (s : DState ε)
    (reg n length data : Nat) (en : Bool) :
    (∀ e, s.bus s.txIdx (Tx.writeRead s.mpu.slave_addr reg 1) = .error e →
      write_bit reg n en s =
        (.error e, advance s (Tx.writeRead s.mpu.slave_addr reg 1)) ∧
      write_bits reg n length data s =
        (.error e, advance s (Tx.writeRead s.mpu.slave_addr reg 1))) ∧
    (∀ l, s.bus s.txIdx (Tx.writeRead s.mpu.slave_addr reg 1) = .ok l →
      ((write_bit reg n en s).2.txs =
        Tx.write s.mpu.slave_addr [reg, set_bit ((padTo 1 l).getD 0 0) n en] ::
          Tx.writeRead s.mpu.slave_addr reg 1 :: s.txs ∧
       (write_bit reg n en s).2.txIdx = s.txIdx + 2 ∧
       (∀ e, s.bus (s.txIdx + 1)
           (Tx.write s.mpu.slave_addr [reg, set_bit ((padTo 1 l).getD 0 0) n en]) =
           .error e → (write_bit reg n en s).1 = .error e) ∧
       (∀ l₂, s.bus (s.txIdx + 1)
           (Tx.write s.mpu.slave_addr [reg, set_bit ((padTo 1 l).getD 0 0) n en]) =
           .ok l₂ → (write_bit reg n en s).1 = .ok ())) ∧
      ((write_bits reg n length data s).2.txs =
        Tx.write s.mpu.slave_addr
            [reg, set_bits ((padTo 1 l).getD 0 0) n length data] ::
          Tx.writeRead s.mpu.slave_addr reg 1 :: s.txs ∧
       (write_bits reg n length data s).2.txIdx = s.txIdx + 2 ∧
       (∀ e, s.bus (s.txIdx + 1)
           (Tx.write s.mpu.slave_addr
             [reg, set_bits ((padTo 1 l).getD 0 0) n length data]) =
           .error e → (write_bits reg n length data s).1 = .error e) ∧
       (∀ l₂, s.bus (s.txIdx + 1)
           (Tx.write s.mpu.slave_addr
             [reg, set_bits ((padTo 1 l).getD 0 0) n length data]) =
           .ok l₂ → (write_bits reg n length data s).1 = .ok ()))) := by
  have Hbit :
      (∀ e, s.bus s.txIdx (Tx.writeRead s.mpu.slave_addr reg 1) = .error e →
        write_bit reg n en s =
          (.error e, advance s (Tx.writeRead s.mpu.slave_addr reg 1))) ∧
      (∀ l, s.bus s.txIdx (Tx.writeRead s.mpu.slave_addr reg 1) = .ok l →
        (write_bit reg n en s).2.txs =
          Tx.write s.mpu.slave_addr [reg, set_bit ((padTo 1 l).getD 0 0) n en] ::
            Tx.writeRead s.mpu.slave_addr reg 1 :: s.txs ∧
        (write_bit reg n en s).2.txIdx = s.txIdx + 2 ∧
        (∀ e, s.bus (s.txIdx + 1)
            (Tx.write s.mpu.slave_addr [reg, set_bit ((padTo 1 l).getD 0 0) n en]) =
            .error e → (write_bit reg n en s).1 = .error e) ∧
        (∀ l₂, s.bus (s.txIdx + 1)
            (Tx.write s.mpu.slave_addr [reg, set_bit ((padTo 1 l).getD 0 0) n en]) =
            .ok l₂ → (write_bit reg n en s).1 = .ok ())) :=
    rmw_run s reg (fun b => set_bit b n en)
  have Hbits :
      (∀ e, s.bus s.txIdx (Tx.writeRead s.mpu.slave_addr reg 1) = .error e →
        write_bits reg n length data s =
          (.error e, advance s (Tx.writeRead s.mpu.slave_addr reg 1))) ∧
      (∀ l, s.bus s.txIdx (Tx.writeRead s.mpu.slave_addr reg 1) = .ok l →
        (write_bits reg n length data s).2.txs =
          Tx.write s.mpu.slave_addr
              [reg, set_bits ((padTo 1 l).getD 0 0) n length data] ::
            Tx.writeRead s.mpu.slave_addr reg 1 :: s.txs ∧
        (write_bits reg n length data s).2.txIdx = s.txIdx + 2 ∧
        (∀ e, s.bus (s.txIdx + 1)
            (Tx.write s.mpu.slave_addr
              [reg, set_bits ((padTo 1 l).getD 0 0) n length data]) =
            .error e → (write_bits reg n length data s).1 = .error e) ∧
        (∀ l₂, s.bus (s.txIdx + 1)
            (Tx.write s.mpu.slave_addr
              [reg, set_bits ((padTo 1 l).getD 0 0) n length data]) =
            .ok l₂ → (write_bits reg n length data s).1 = .ok ())) :=
    rmw_run s reg (fun b => set_bits b n length data)
  exact ⟨fun e he => ⟨(Hbit.1 e he), (Hbits.1 e he)⟩,
    fun l hl => ⟨Hbit.2 l hl, Hbits.2 l hl⟩⟩

/-- Witness for claim C9: a concrete state whose bus answers the read
with one byte and accepts the write. -/
theorem c9_witness :
    (write_bit 27 3 true (mkState demoMpu (constBus [0, 0] [5]))).2.txs =
      Tx.write demoMpu.slave_addr
          [27, set_bit ((padTo 1 [5]).getD 0 0) 3 true] ::
        Tx.writeRead demoMpu.slave_addr 27 1 ::
        (mkState demoMpu (constBus [0, 0] [5])).txs ∧
    (write_bit 27 3 true (mkState demoMpu (constBus [0, 0] [5]))).2.txIdx =
      (mkState demoMpu (constBus [0, 0] [5])).txIdx + 2 := by
  have h := (c9_write_bit_bits_transactions
    (mkState demoMpu (constBus [0, 0] [5])) 27 3 2 1 true).2 [5] rfl
  exact ⟨h.1.1, h.1.2.1⟩

theorem calibrate_gyro_mpu_cases {ε : Type} (s : DState ε) :
    ((set_gyro_offsets 0 0 0 s).1 = .ok () →
      ((calibrate_gyro s).2.mpu.gyro_fine_tune_offsets = ⟨0, 0, 0⟩ ∨
        ∃ m, inBand m = true ∧ (calibrate_gyro s).1 = .ok () ∧
          (calibrate_gyro s).2.mpu.gyro_fine_tune_offsets = fineTuneOfMean m)) ∧
    (∀ e, (set_gyro_offsets 0 0 0 s).1 = .error e →
      (calibrate_gyro s).1 = .error e ∧ (calibrate_gyro s).2.mpu = s.mpu) ∧
    (calibrate_gyro s).2.mpu.acc_sensitivity = s.mpu.acc_sensitivity ∧
    (calibrate_gyro s).2.mpu.gyro_sensitivity = s.mpu.gyro_sensitivity ∧
    (calibrate_gyro s).2.mpu.slave_addr = s.mpu.slave_addr := by
  rcases h0 : set_gyro_offsets 0 0 0 s with ⟨r0, s0⟩
  have p0 : s0.mpu = s.mpu := by
    have := preserves_set_gyro_offsets (ε := ε) 0 0 0 s
    rw [h0] at this
    exact this.1
  unfold calibrate_gyro
  simp only [dBind, h0, setFineTune, MAX_CALIBRATION_STEPS]
  cases r0 with
  | error e0 =>
      refine ⟨?_, ?_, by rw [p0], by rw [p0], by rw [p0]⟩
      · intro h
        exact absurd h (by simp)
      · intro e he
        have he' : e0 = e := by simpa using he
        subst he'
        exact ⟨rfl, p0⟩
  | ok u =>
      obtain ⟨hm, _⟩ := calibLoop_cases (ε := ε) 20 0
        { s0 with mpu := { s0.mpu with gyro_fine_tune_offsets := ⟨0, 0, 0⟩ } }
      refine ⟨?_, ?_, ?_, ?_, ?_⟩
      · intro _
        rcases hm with h | ⟨m, hmB, hr, hmp⟩
        · left; rw [h]
        · right; exact ⟨m, hmB, hr, by rw [hmp]⟩
      · intro e he
        exact absurd he (by simp)
      · rcases hm with h | ⟨m, _, _, hmp⟩
        · rw [h]; simp [p0]
        · rw [hmp]; simp [p0]
      · rcases hm with h | ⟨m, _, _, hmp⟩
        · rw [h]; simp [p0]
        · rw [hmp]; simp [p0]
      · rcases hm with h | ⟨m, _, _, hmp⟩
        · rw [h]; simp [p0]
        · rw [hmp]; simp [p0]

/-! ### Claim C7 -/

/-- Claim C7. `calibrate_gyro` zeroes the hardware offsets and then the
fine-tune offsets; after that reset the fine-tune vector is replaced only
by a converged step's capture — a run whose initial offset write fails
leaves it untouched, a run that never converges ends with the reset
`(0,0,0)`, and no other driver operation touches it. -/
theorem c7_fine_tune_invariant {ε : Type} :
    (∀ s : DState ε,
      ((set_gyro_offsets 0 0 0 s).1 = .ok () →
        ((calibrate_gyro s).2.mpu.gyro_fine_tune_offsets = ⟨0, 0, 0⟩ ∨
          ∃ m, inBand m = true ∧ (calibrate_gyro s).1 = .ok () ∧
            (calibrate_gyro s).2.mpu.gyro_fine_tune_offsets = fineTuneOfMean m)) ∧
      (∀ e, (set_gyro_offsets 0 0 0 s).1 = .error e →
        (calibrate_gyro s).1 = .error e ∧
        (calibrate_gyro s).2.mpu.gyro_fine_tune_offsets =
          s.mpu.gyro_fine_tune_offsets)) ∧
    (∀ (s : DState ε) (reg byte : Nat),
      (write_byte reg byte s).2.mpu = s.mpu) ∧
    (∀ (s : DState ε) (reg w : Nat), (write_word reg w s).2.mpu = s.mpu) ∧
    (∀ (s : DState ε) (reg n : Nat) (en : Bool),
      (write_bit reg n en s).2.mpu = s.mpu) ∧
    (∀ (s : DState ε) (reg sb len data : Nat),
      (write_bits reg sb len data s).2.mpu = s.mpu) ∧
    (∀ (s : DState ε) (reg len : Nat), (read_bytes reg len s).2.mpu = s.mpu) ∧
    (∀ (s : DState ε) (reg : Nat), (read_byte reg s).2.mpu = s.mpu) ∧
    (∀ (s : DState ε) (reg n : Nat), (read_bit reg n s).2.mpu = s.mpu) ∧
    (∀ (s : DState ε) (reg sb len : Nat), (read_bits reg sb len s).2.mpu = s.mpu) ∧
    (∀ (s : DState ε) (reg : Nat), (read_rot_i32 reg s).2.mpu = s.mpu) ∧
    (∀ s : DState ε, (get_gyro_offsets s).2.mpu = s.mpu) ∧
    (∀ (s : DState ε) (x y z : Int), (set_gyro_offsets x y z s).2.mpu = s.mpu) ∧
    (∀ s : DState ε, (calibrate_gyro_mean_sensor s).2.mpu = s.mpu) ∧
    (∀ (s : DState ε) (sens : GyroRange → ℚ) (r : GyroRange),
      (set_gyro_range sens r s).2.mpu.gyro_fine_tune_offsets =
        s.mpu.gyro_fine_tune_offsets) ∧
    (∀ (s : DState ε) (sens : AccelRange → ℚ) (r : AccelRange),
      (set_accel_range sens r s).2.mpu.gyro_fine_tune_offsets =
        s.mpu.gyro_fine_tune_offsets) := by
  refine ⟨?_, ?_, ?_, ?_, ?_, ?_, ?_, ?_, ?_, ?_, ?_, ?_, ?_, ?_, ?_⟩
  · intro s
    have h := calibrate_gyro_mpu_cases s
    exact ⟨h.1, fun e he => ⟨(h.2.1 e he).1, congrArg MpuState.gyro_fine_tune_offsets
      (h.2.1 e he).2⟩⟩
  · exact fun s reg byte => (preserves_write_byte reg byte s).1
  · exact fun s reg w => (preserves_write_word reg w s).1
  · exact fun s reg n en => (preserves_write_bit reg n en s).1
  · exact fun s reg sb len data => (preserves_write_bits reg sb len data s).1
  · exact fun s reg len => (preserves_read_bytes reg len s).1
  · exact fun s reg => (preserves_read_byte reg s).1
  · exact fun s reg n => (preserves_read_bit reg n s).1
  · exact fun s reg sb len => (preserves_read_bits reg sb len s).1
  · exact fun s reg => (preserves_read_rot_i32 reg s).1
  · exact fun s => (preserves_get_gyro_offsets s).1
  · exact fun s x y z => (preserves_set_gyro_offsets x y z s).1
  · exact fun s => (preserves_mean_sensor s).1
  · exact fun s sens r => (set_gyro_range_ft sens r s).1
  · exact fun s sens r => (set_accel_range_ft sens r s).1

/-- Witness for claim C7: a run whose initial offset write succeeds and
one whose very first bus write fails with error 7. -/
theorem c7_witness :
    ((calibrate_gyro zeroBusState).2.mpu.gyro_fine_tune_offsets = ⟨0, 0, 0⟩ ∨
      ∃ m, inBand m = true ∧ (calibrate_gyro zeroBusState).1 = .ok () ∧
        (calibrate_gyro zeroBusState).2.mpu.gyro_fine_tune_offsets =
          fineTuneOfMean m) ∧
    ((calibrate_gyro failBusState).1 = .error 7 ∧
      (calibrate_gyro failBusState).2.mpu.gyro_fine_tune_offsets =
        failBusState.mpu.gyro_fine_tune_offsets) :=
  ⟨((c7_fine_tune_invariant (ε := Nat)).1 zeroBusState).1 rfl,
   ((c7_fine_tune_invariant (ε := Nat)).1 failBusState).2 7 rfl⟩

/-! ### Claim C8 -/

/-- Claim C8. `set_gyro_range` and `set_accel_range` cache exactly the
table value `sens range` on success; on a bus failure in either of the
two underlying transactions the error is propagated verbatim and the
handle is unchanged. No other operation modifies the cached
sensitivities (the neutral operations keep the whole handle, and
`calibrate_gyro` and the opposite-range setter keep both sensitivity
fields). -/
theorem c8_range_setters_sensitivity {ε : Type} :
    (∀ (sens : GyroRange → ℚ) (r : GyroRange) (s : DState ε),
      ((set_gyro_range sens r s).1 = .ok () →
        (set_gyro_range sens r s).2.mpu = { s.mpu with gyro_sensitivity := sens r }) ∧
      (∀ e, (set_gyro_range sens r s).1 = .error e →
        (set_gyro_range sens r s).2.mpu = s.mpu ∧
        (s.bus s.txIdx (Tx.writeRead s.mpu.slave_addr GYRO_CONFIG_ADDR 1) = .error e ∨
          ∃ l, s.bus s.txIdx (Tx.writeRead s.mpu.slave_addr GYRO_CONFIG_ADDR 1) =
              .ok l ∧
            s.bus (s.txIdx + 1) (Tx.write s.mpu.slave_addr
              [GYRO_CONFIG_ADDR, set_bits ((padTo 1 l).getD 0 0) FS_SEL_BIT
                FS_SEL_LENGTH r.code]) = .error e))) ∧
    (∀ (sens : AccelRange → ℚ) (r : AccelRange) (s : DState ε),
      ((set_accel_range sens r s).1 = .ok () →
        (set_accel_range sens r s).2.mpu = { s.mpu with acc_sensitivity := sens r }) ∧
      (∀ e, (set_accel_range sens r s).1 = .error e →
        (set_accel_range sens r s).2.mpu = s.mpu ∧
        (s.bus s.txIdx (Tx.writeRead s.mpu.slave_addr ACCEL_CONFIG_ADDR 1) =
            .error e ∨
          ∃ l, s.bus s.txIdx (Tx.writeRead s.mpu.slave_addr ACCEL_CONFIG_ADDR 1) =
              .ok l ∧
            s.bus (s.txIdx + 1) (Tx.write s.mpu.slave_addr
              [ACCEL_CONFIG_ADDR, set_bits ((padTo 1 l).getD 0 0) FS_SEL_BIT
                FS_SEL_LENGTH r.code]) = .error e))) ∧
    (∀ (s : DState ε) (reg byte w n sb len data reg2 : Nat) (en : Bool) (x y z : Int),
      (write_byte reg byte s).2.mpu = s.mpu ∧
      (write_word reg w s).2.mpu = s.mpu ∧
      (write_bit reg n en s).2.mpu = s.mpu ∧
      (write_bits reg sb len data s).2.mpu = s.mpu ∧
      (read_bytes reg len s).2.mpu = s.mpu ∧
      (read_byte reg2 s).2.mpu = s.mpu ∧
      (read_bit reg n s).2.mpu = s.mpu ∧
      (read_bits reg sb len s).2.mpu = s.mpu ∧
      (read_rot_i32 reg s).2.mpu = s.mpu ∧
      (get_gyro_offsets s).2.mpu = s.mpu ∧
      (set_gyro_offsets x y z s).2.mpu = s.mpu ∧
      (calibrate_gyro_mean_sensor s).2.mpu = s.mpu ∧
      (calibrate_gyro s).2.mpu.acc_sensitivity = s.mpu.acc_sensitivity ∧
      (calibrate_gyro s).2.mpu.gyro_sensitivity = s.mpu.gyro_sensitivity) ∧
    (∀ (s : DState ε) (sens : GyroRange → ℚ) (r : GyroRange),
      (set_gyro_range sens r s).2.mpu.acc_sensitivity = s.mpu.acc_sensitivity) ∧
    (∀ (s : DState ε) (sens : AccelRange → ℚ) (r : AccelRange),
      (set_accel_range sens r s).2.mpu.gyro_sensitivity = s.mpu.gyro_sensitivity) := by
  refine ⟨?_, ?_, ?_, ?_, ?_⟩
  · intro sens r s
    have Hb := rmw_run s GYRO_CONFIG_ADDR
      (fun b => set_bits b FS_SEL_BIT FS_SEL_LENGTH r.code)
    rcases hw : write_bits GYRO_CONFIG_ADDR FS_SEL_BIT FS_SEL_LENGTH r.code s
      with ⟨rw1, s1⟩
    have hw' : rmw GYRO_CONFIG_ADDR
        (fun b => set_bits b FS_SEL_BIT FS_SEL_LENGTH r.code) s = (rw1, s1) := hw
    have hp : s1.mpu = s.mpu := by
      have := preserves_write_bits (ε := ε) GYRO_CONFIG_ADDR FS_SEL_BIT FS_SEL_LENGTH
        r.code s
      rw [hw] at this
      exact this.1
    unfold set_gyro_range
    simp only [dBind, hw]
    cases rw1 with
    | ok u =>
        refine ⟨fun _ => ?_, fun e he => absurd he (by simp)⟩
        show ({ s1.mpu with gyro_sensitivity := sens r } : MpuState) = _
        rw [hp]
    | error e0 =>
        refine ⟨fun h => absurd h (by simp), fun e he => ?_⟩
        have he' : e0 = e := by simpa using he
        subst he'
        refine ⟨hp, ?_⟩
        cases hr0 : s.bus s.txIdx (Tx.writeRead s.mpu.slave_addr GYRO_CONFIG_ADDR 1)
          with
        | error e1 =>
            have h1 := Hb.1 e1 hr0
            rw [hw'] at h1
            have : e0 = e1 := by simpa using congrArg Prod.fst h1
            subst this
            exact Or.inl rfl
        | ok l =>
            have Hc := Hb.2 l hr0
            cases hr1 : s.bus (s.txIdx + 1) (Tx.write s.mpu.slave_addr
              [GYRO_CONFIG_ADDR, set_bits ((padTo 1 l).getD 0 0) FS_SEL_BIT
                FS_SEL_LENGTH r.code]) with
            | error e2 =>
                have h1 := Hc.2.2.1 e2 hr1
                rw [hw'] at h1
                have : e0 = e2 := by simpa using h1
                subst this
                exact Or.inr ⟨l, rfl, hr1⟩
            | ok l2 =>
                have h1 := Hc.2.2.2 l2 hr1
                rw [hw'] at h1
                exact absurd h1 (by simp)
  · intro sens r s
    have Hb := rmw_run s ACCEL_CONFIG_ADDR
      (fun b => set_bits b FS_SEL_BIT FS_SEL_LENGTH r.code)
    rcases hw : write_bits ACCEL_CONFIG_ADDR FS_SEL_BIT FS_SEL_LENGTH r.code s
      with ⟨rw1, s1⟩
    have hw' : rmw ACCEL_CONFIG_ADDR
        (fun b => set_bits b FS_SEL_BIT FS_SEL_LENGTH r.code) s = (rw1, s1) := hw
    have hp : s1.mpu = s.mpu := by
      have := preserves_write_bits (ε := ε) ACCEL_CONFIG_ADDR FS_SEL_BIT FS_SEL_LENGTH
        r.code s
      rw [hw] at this
      exact this.1
    unfold set_accel_range
    simp only [dBind, hw]
    cases rw1 with
    | ok u =>
        refine ⟨fun _ => ?_, fun e he => absurd he (by simp)⟩
        show ({ s1.mpu with acc_sensitivity := sens r } : MpuState) = _
        rw [hp]
    | error e0 =>
        refine ⟨fun h => absurd h (by simp), fun e he => ?_⟩
        have he' : e0 = e := by simpa using he
        subst he'
        refine ⟨hp, ?_⟩
        cases hr0 : s.bus s.txIdx (Tx.writeRead s.mpu.slave_addr ACCEL_CONFIG_ADDR 1)
          with
        | error e1 =>
            have h1 := Hb.1 e1 hr0
            rw [hw'] at h1
            have : e0 = e1 := by simpa using congrArg Prod.fst h1
            subst this
            exact Or.inl rfl
        | ok l =>
            have Hc := Hb.2 l hr0
            cases hr1 : s.bus (s.txIdx + 1) (Tx.write s.mpu.slave_addr
              [ACCEL_CONFIG_ADDR, set_bits ((padTo 1 l).getD 0 0) FS_SEL_BIT
                FS_SEL_LENGTH r.code]) with
            | error e2 =>
                have h1 := Hc.2.2.1 e2 hr1
                rw [hw'] at h1
                have : e0 = e2 := by simpa using h1
                subst this
                exact Or.inr ⟨l, rfl, hr1⟩
            | ok l2 =>
                have h1 := Hc.2.2.2 l2 hr1
                rw [hw'] at h1
                exact absurd h1 (by simp)
  · intro s reg byte w n sb len data reg2 en x y z
    have hc := calibrate_gyro_mpu_cases s
    exact ⟨(preserves_write_byte reg byte s).1, (preserves_write_word reg w s).1,
      (preserves_write_bit reg n en s).1, (preserves_write_bits reg sb len data s).1,
      (preserves_read_bytes reg len s).1, (preserves_read_byte reg2 s).1,
      (preserves_read_bit reg n s).1, (preserves_read_bits reg sb len s).1,
      (preserves_read_rot_i32 reg s).1, (preserves_get_gyro_offsets s).1,
      (preserves_set_gyro_offsets x y z s).1, (preserves_mean_sensor s).1,
      hc.2.2.1, hc.2.2.2.1⟩
  · exact fun s sens r => (set_gyro_range_ft sens r s).2
  · exact fun s sens r => (set_accel_range_ft sens r s).2

/-- Witness for claim C8: a successful gyro-range set on an all-zero
bus caches the table value; a failing accel-range set on an
always-failing bus propagates error 7 and leaves the handle unchanged. -/
theorem c8_witness :
    (set_gyro_range (fun _ => 131) GyroRange.D250 zeroBusState).2.mpu =
      { zeroBusState.mpu with gyro_sensitivity := 131 } ∧
    (set_accel_range (fun _ => 16384) AccelRange.G2 failBusState).2.mpu =
      failBusState.mpu :=
  ⟨((c8_range_setters_sensitivity (ε := Nat)).1 (fun _ => 131) GyroRange.D250
      zeroBusState).1 rfl,
   (((c8_range_setters_sensitivity (ε := Nat)).2.1 (fun _ => 16384) AccelRange.G2
      failBusState).2 7 rfl).1⟩

/-! ### Claim C6 (corrected) -/

/-- Claim C6 counterexample. Two consecutive runs of the per-step mean
computation consume 2200 gyro-read transactions, not the 2100 the claim
predicts for a one-off discard at engine start: the 100-sample discard
happens inside `calibrate_gyro_mean_sensor`, hence before every step's
1000-sample collection. -/
theorem c6_counterexample_discard_repeats :
    (dBind calibrate_gyro_mean_sensor (fun _ => calibrate_gyro_mean_sensor)
        zeroBusState).2.txIdx = 2200 ∧ (2200 : Nat) ≠ 100 + 2 * 1000 := by
  constructor
  · rw [two_mean_sensor_txIdx zeroBusState (constBus_total _ _)]
    rfl
  · decide

/-- Claim C6 as amended. Every call of the mean computation — there is
one per calibration step — first discards 100 raw gyro samples and then
collects exactly 1000 and returns their per-axis arithmetic mean
`sum / 1000`: the returned mean averages the samples of transactions
`txIdx+100 .. txIdx+1099`, and 1100 read transactions are consumed. -/
theorem c6_mean_sensor_per_step_discard {ε : Type} (s : DState ε)
    (h : BusTotal s.bus) :
    (calibrate_gyro_mean_sensor s).1 =
      .ok (meanAt s.bus s.mpu.slave_addr s.mpu.gyro_fine_tune_offsets s.txIdx) ∧
    (calibrate_gyro_mean_sensor s).2.txIdx = s.txIdx + 1100 ∧
    meanAt s.bus s.mpu.slave_addr s.mpu.gyro_fine_tune_offsets s.txIdx =
      ⟨((sumFrom (sampleAt s.bus s.mpu.slave_addr s.mpu.gyro_fine_tune_offsets)
          (s.txIdx + 100) 1000).x : ℚ) / 1000,
       ((sumFrom (sampleAt s.bus s.mpu.slave_addr s.mpu.gyro_fine_tune_offsets)
          (s.txIdx + 100) 1000).y : ℚ) / 1000,
       ((sumFrom (sampleAt s.bus s.mpu.slave_addr s.mpu.gyro_fine_tune_offsets)
          (s.txIdx + 100) 1000).z : ℚ) / 1000⟩ := by
  obtain ⟨l, hrun⟩ := mean_sensor_run s h
  refine ⟨by rw [hrun], by rw [hrun], ?_⟩
  unfold meanAt MEASURMENT_COUNT
  norm_num

/-- Witness for claim C6 at the all-zero constant bus. -/
theorem c6_witness :
    (calibrate_gyro_mean_sensor zeroBusState).1 =
      .ok (meanAt zeroBusState.bus zeroBusState.mpu.slave_addr
        zeroBusState.mpu.gyro_fine_tune_offsets zeroBusState.txIdx) ∧
    (calibrate_gyro_mean_sensor zeroBusState).2.txIdx = zeroBusState.txIdx + 1100 :=
  ⟨(c6_mean_sensor_per_step_discard zeroBusState (constBus_total _ _)).1,
   (c6_mean_sensor_per_step_discard zeroBusState (constBus_total _ _)).2.1⟩

/-! ### Claim C4 -/

/-- Claim C4. A calibration step whose measured mean lies within the
tolerance band on all three axes converges (the loop flag comes back
true) and captures the fine-tune offsets as the negation of that mean
truncated toward zero, per axis; every subsequent gyro read adds the
current fine-tune vector to the decoded sample. -/
theorem c4_converged_step_captures_fine_tune {ε : Type} :
    (∀ (step : Nat) (s : DState ε), BusTotal s.bus →
      inBand (meanAt s.bus s.mpu.slave_addr s.mpu.gyro_fine_tune_offsets s.txIdx) =
        true →
      (calibIteration step s).1 = .ok true ∧
      (calibIteration step s).2.mpu.gyro_fine_tune_offsets =
        fineTuneOfMean (meanAt s.bus s.mpu.slave_addr s.mpu.gyro_fine_tune_offsets
          s.txIdx)) ∧
    (∀ m : V3 ℚ,
      fineTuneOfMean m = ⟨-truncToInt m.x, -truncToInt m.y, -truncToInt m.z⟩) ∧
    (∀ (s : DState ε) (l : List Nat),
      s.bus s.txIdx (Tx.writeRead s.mpu.slave_addr GYRO_REGX_H 6) = .ok l →
      (read_rot_i32 GYRO_REGX_H s).1 =
        .ok (decode6 (padTo 6 l) + s.mpu.gyro_fine_tune_offsets)) := by
  refine ⟨?_, ?_, ?_⟩
  · intro step s h hband
    obtain ⟨h1, h2, _, _, _⟩ := calibIteration_run step s h
    rw [hband] at h1 h2
    simp only [eq_self_iff_true, if_true] at h2
    exact ⟨h1, by rw [h2]⟩
  · intro m
    unfold fineTuneOfMean
    rw [truncToInt_neg, truncToInt_neg, truncToInt_neg]
  · intro s l hl
    simp only [read_rot_i32, dBind, read_bytes_run s GYRO_REGX_H 6 hl, dGetMpu, dPure,
      decode6, V3.add_def, advance]

theorem decode6_zeros : decode6 (padTo 6 [0, 0, 0, 0, 0, 0]) = ⟨0, 0, 0⟩ := by decide

theorem inBand_zero_cast :
    inBand ⟨(((⟨0, 0, 0⟩ : V3 Int)).x : ℚ), (((⟨0, 0, 0⟩ : V3 Int)).y : ℚ),
      (((⟨0, 0, 0⟩ : V3 Int)).z : ℚ)⟩ = true := by
  simp [inBand, TARGET_MAX_MEASUREMENT_MEAN]

theorem inBand_eq_false_of_x {m : V3 ℚ}
    (h : ¬(|m.x| < TARGET_MAX_MEASUREMENT_MEAN)) : inBand m = false := by
  unfold inBand
  rw [decide_eq_false h]
  simp

theorem inBand_meanAt_zeroBus :
    inBand (meanAt zeroBusState.bus zeroBusState.mpu.slave_addr
      zeroBusState.mpu.gyro_fine_tune_offsets zeroBusState.txIdx) = true := by
  show inBand (meanAt (constBus [0, 0, 0, 0, 0, 0] [0, 0]) demoMpu.slave_addr
    ⟨0, 0, 0⟩ 0) = true
  rw [meanAt_constBus, decode6_zeros]
  exact inBand_zero_cast

/-- Witness for claim C4: the all-zero constant bus converges at the
first step and captures the zero fine-tune vector. -/
theorem c4_witness :
    (calibIteration 0 zeroBusState).1 = .ok true ∧
    (calibIteration 0 zeroBusState).2.mpu.gyro_fine_tune_offsets =
      fineTuneOfMean (meanAt zeroBusState.bus zeroBusState.mpu.slave_addr
        zeroBusState.mpu.gyro_fine_tune_offsets zeroBusState.txIdx) :=
  (c4_converged_step_captures_fine_tune (ε := Nat)).1 0 zeroBusState
    (constBus_total _ _) inBand_meanAt_zeroBus

/-! ### Claim C10 -/

/-- Claim C10. The tolerance band is strict on both sides: an axis mean
of absolute value exactly 1.5 is neither adjusted (adjustment needs
`|mean| > 1.5`) nor counted toward convergence (convergence needs
`|mean| < 1.5`); a run whose per-step mean is exactly 1.5 on every axis
performs all 20 steps, leaves the offsets where the update function put
them — unchanged — and ends without convergence (fine-tune still zero,
yet the run returns Ok). -/
theorem c10_boundary_mean_strict {ε : Type} :
    (∀ (o : Int) (m : ℚ), |m| = 3 / 2 → updAxis o m = o) ∧
    (∀ m : V3 ℚ, |m.x| = 3 / 2 ∨ |m.y| = 3 / 2 ∨ |m.z| = 3 / 2 → inBand m = false) ∧
    (∀ (ob : List Nat) (s : DState ε),
      s.bus = parityBus [0, 1, 0, 1, 0, 1] [0, 2, 0, 2, 0, 2] ob →
      (calibrate_gyro s).1 = .ok () ∧
      (calibrate_gyro s).2.cbLog.length = 20 + s.cbLog.length ∧
      (calibrate_gyro s).2.mpu.gyro_fine_tune_offsets = ⟨0, 0, 0⟩) := by
  refine ⟨?_, ?_, ?_⟩
  · intro o m h
    unfold updAxis TARGET_MAX_MEASUREMENT_MEAN
    rw [if_neg (by rw [h]; exact lt_irrefl _)]
  · intro m h
    rcases h with h | h | h <;>
      simp [inBand, TARGET_MAX_MEASUREMENT_MEAN, h, lt_irrefl]
  · intro ob s hb
    have hM : ∀ t, meanAt (parityBus (ε := ε) [0, 1, 0, 1, 0, 1] [0, 2, 0, 2, 0, 2] ob)
        s.mpu.slave_addr ⟨0, 0, 0⟩ t = ⟨3 / 2, 3 / 2, 3 / 2⟩ := by
      intro t
      rw [meanAt_parityBus]
      have hd : decode6 (padTo 6 [0, 1, 0, 1, 0, 1]) +
          decode6 (padTo 6 [0, 2, 0, 2, 0, 2]) = ⟨3, 3, 3⟩ := by decide
      rw [hd]
      simp only [V3.mk.injEq]
      norm_num
    have hband : inBand ⟨(3 : ℚ) / 2, 3 / 2, 3 / 2⟩ = false := by
      apply inBand_eq_false_of_x
      show ¬(|(3 : ℚ) / 2| < TARGET_MAX_MEASUREMENT_MEAN)
      unfold TARGET_MAX_MEASUREMENT_MEAN
      rw [abs_of_pos (by norm_num)]
      norm_num
    obtain ⟨g1, g2, g3⟩ := calibrate_gyro_run_noconv (parityBus_total _ _ _) hM hband
      s hb rfl
    refine ⟨g1, ?_, by rw [g2]⟩
    rw [g3]
    simp [revSteps_length]

theorem q_abs_three_halves : |(3 : ℚ) / 2| = 3 / 2 := by norm_num

/-- Witness for claim C10: the boundary axis value and the alternating
boundary bus. -/
theorem c10_witness :
    updAxis 7 (3 / 2) = 7 ∧
    (calibrate_gyro boundaryState).1 = .ok () ∧
    (calibrate_gyro boundaryState).2.cbLog.length = 20 + boundaryState.cbLog.length ∧
    (calibrate_gyro boundaryState).2.mpu.gyro_fine_tune_offsets = ⟨0, 0, 0⟩ :=
  ⟨(c10_boundary_mean_strict (ε := Nat)).1 7 (3 / 2) q_abs_three_halves,
   (c10_boundary_mean_strict (ε := Nat)).2.2 [0, 0] boundaryState rfl⟩

/-! ### Claim C2 witness -/

theorem c2_hband :
    inBand ⟨((decode6 (padTo 6 [0, 2, 0, 2, 0, 2])).x : ℚ),
      ((decode6 (padTo 6 [0, 2, 0, 2, 0, 2])).y : ℚ),
      ((decode6 (padTo 6 [0, 2, 0, 2, 0, 2])).z : ℚ)⟩ = false := by
  have hd : decode6 (padTo 6 [0, 2, 0, 2, 0, 2]) = ⟨2, 2, 2⟩ := by decide
  rw [hd]
  apply inBand_eq_false_of_x
  show ¬(|((2 : ℤ) : ℚ)| < TARGET_MAX_MEASUREMENT_MEAN)
  unfold TARGET_MAX_MEASUREMENT_MEAN
  rw [abs_of_pos (by norm_num)]
  norm_num

/-- Witness for claim C2: the constant bus whose samples decode to
`(2,2,2)` never converges; the run does exactly 20 steps and returns Ok. -/
theorem c2_witness :
    (calibrate_gyro pathologicalState).1 = .ok () ∧
    (calibrate_gyro pathologicalState).2.cbLog.length =
      20 + pathologicalState.cbLog.length ∧
    (calibrate_gyro failBusState).2.cbLog.length ≤ 20 + failBusState.cbLog.length :=
  ⟨(c2_calibrate_terminates_after_20_steps_on_pathological_bus [0, 2, 0, 2, 0, 2]
      [0, 0] pathologicalState rfl c2_hband).1,
   (c2_calibrate_terminates_after_20_steps_on_pathological_bus [0, 2, 0, 2, 0, 2]
      [0, 0] pathologicalState rfl c2_hband).2.1,
   (c2_calibrate_terminates_after_20_steps_on_pathological_bus [0, 2, 0, 2, 0, 2]
      [0, 0] pathologicalState rfl c2_hband).2.2 failBusState⟩

end Mpu6050
